import Mathlib

/-!
Verification of the coordinate-system and relational-integrity core of the
`spatialdata` container (`src/spatialdata/_core/spatialdata.py`).

Python dictionaries are embedded as association lists (`List (String × α)`)
preserving insertion order: assignment replaces the value in place when the
key is present and appends otherwise, `pop` removes the entry, iteration is
list order.  Fallible operations return `Except String`.  Element payloads
are opaque (`Nat`), as the core never interprets them; the random 8-character
suffixes drawn in `rename_coordinate_systems` are supplied by an oracle
parameter, with the properties the source guarantees with probability one
(fresh, pairwise distinct, length 8) taken as hypotheses.
-/

namespace SpatialDataCore

/-- Lookup of a key in an association list (first matching entry wins, as in
a Python dict, whose keys are unique). -/
def alookup {α : Type} : List (String × α) → String → Option α
  | [], _ => none
  | (k, v) :: rest, key => if k = key then some v else alookup rest key

/-- Membership test for a key, mirroring the Python `key in dict` check. -/
def hasKey {α : Type} (l : List (String × α)) (k : String) : Bool :=
  (alookup l k).isSome

/-- Python dict assignment `d[k] = v`: replace in place if the key is
present, append otherwise. -/
def aset {α : Type} : List (String × α) → String → α → List (String × α)
  | [], key, v => [(key, v)]
  | (k, w) :: rest, key, v =>
      if k = key then (k, v) :: rest else (k, w) :: aset rest key v

/-- Python dict `d.pop(k)`: remove the entry for `k` (callers check presence
first). -/
def apop {α : Type} : List (String × α) → String → List (String × α)
  | [], _ => []
  | (k, w) :: rest, key => if k = key then rest else (k, w) :: apop rest key

/-- Keys of an association list, in order. -/
def akeys {α : Type} (l : List (String × α)) : List String :=
  l.map Prod.fst

/-- Modelled from the spec: the transformation variants of the
`spatialdata.transformations` module (not under src/): Identity, Scale,
Translation, Affine and Sequence (§3).  Payload values are integers; the core
under verification never inspects them, only stores and moves them. -/
inductive Transformation where
  | identity
  | scale (v : List Int)
  | translation (v : List Int)
  | affine (m : List (List Int))
  | sequence (ts : List Transformation)

/-- A spatial element: an opaque payload plus the mapping from
coordinate-system name to transformation carried in its metadata
(`element.attrs["transform"]` in the source). -/
structure Element where
  payload : Nat
  transformations : List (String × Transformation)

/-- The `region` field of table annotation metadata: the source accepts a
single name or a list of names (`str | pd.Series`). -/
inductive RegionSpec where
  | one (name : String)
  | many (names : List String)

/-- Normalisation used by `validate_table_in_spatialdata`:
`attrs[REGION_KEY] if isinstance(..., list) else [attrs[REGION_KEY]]`. -/
def RegionSpec.toList : RegionSpec → List String
  | .one n => [n]
  | .many ns => ns

/-- The `spatialdata_attrs` block of `table.uns`: the region / region_key /
instance_key triple. -/
structure TableAttrs where
  region : RegionSpec
  region_key : String
  instance_key : String

/-- An annotation table: `obs` is a column-oriented data frame (column name
to the list of row values, values embedded as strings) and `attrs` is the
optional `spatialdata_attrs` metadata block of `uns`. -/
structure Table where
  obs : List (String × List String)
  attrs : Option TableAttrs

/-- The SpatialData container: the five name-keyed collections plus the
backing path (`_path`). -/
structure SpatialData where
  images : List (String × Element)
  labels : List (String × Element)
  points : List (String × Element)
  shapes : List (String × Element)
  tables : List (String × Table)
  path : Option String := none

/-- Iteration of `_gen_elements()` over the four spatial collections, in the
source order images, labels, points, shapes, tagged with the element type. -/
def SpatialData.spatialElements (sd : SpatialData) : List (String × String × Element) :=
  sd.images.map (fun p => ("images", p.1, p.2))
    ++ sd.labels.map (fun p => ("labels", p.1, p.2))
    ++ sd.points.map (fun p => ("points", p.1, p.2))
    ++ sd.shapes.map (fun p => ("shapes", p.1, p.2))

/-- Names of the spatial elements, as collected by
`[name for _, name, _ in self._gen_elements()]`. -/
def SpatialData.spatialElementNames (sd : SpatialData) : List String :=
  sd.spatialElements.map (fun p => p.2.1)

/-- The `coordinate_systems` property: the union, over every spatial
element, of the keys of its transformation mapping (the source builds a
Python set; only membership in the result is ever used). -/
def SpatialData.coordinate_systems (sd : SpatialData) : List String :=
  (sd.spatialElements.flatMap (fun p => akeys p.2.2.transformations)).dedup

/-- Row mask application: keep the values of a column at the positions where
the mask is true (the pandas boolean-indexing step of row filtering). -/
def applyMask : List Bool → List String → List String
  | b :: bs, v :: vs => if b then v :: applyMask bs vs else applyMask bs vs
  | _, _ => []

/-- Restriction of a table to the rows selected by `keepRow` applied to the
region_key column.  A table without annotation metadata or without the
region_key column has no region_key values and is returned unchanged. -/
def filterTableRows (t : Table) (keepRow : String → Bool) : Table :=
  match t.attrs with
  | none => t
  | some a =>
      match alookup t.obs a.region_key with
      | none => t
      | some regionCol =>
          let mask := regionCol.map keepRow
          { t with obs := t.obs.map (fun col => (col.1, applyMask mask col.2)) }

/-- Modelled from the spec: `_filter_table_by_coordinate_system` (module
`spatialdata._core.query.relational_query`, not under src/) restricts the
table to the rows whose region_key value is among the names of the elements
kept in the requested coordinate systems (§4.4 `filter_table_by_elements`,
§4.5). -/
def filter_table_by_elements (t : Table) (names : List String) : Table :=
  filterTableRows t (fun v => names.contains v)

/-- Inner loop of `filter_by_coordinate_system` for one element: for each
requested coordinate system present in the element transformation mapping,
the element is assigned into the per-type dict and its name is appended to
`element_paths_in_coordinate_system`. -/
def filterEntry (csList : List String) (ename : String) (el : Element)
    (acc : List (String × Element) × List String) :
    List (String × Element) × List String :=
  csList.foldl
    (fun acc cs =>
      if hasKey el.transformations cs then (aset acc.1 ename el, acc.2 ++ [ename])
      else acc)
    acc

/-- Outer loop of `filter_by_coordinate_system` over one collection,
threading the accumulated list of kept element names. -/
def filterColl (csList : List String) (coll : List (String × Element))
    (paths : List String) : List (String × Element) × List String :=
  coll.foldl (fun acc p => filterEntry csList p.1 p.2 acc) ([], paths)

/-- The `filter_by_coordinate_system` method: keep each spatial element iff
its transformation mapping contains one of the requested systems; when
`filter_tables` is true every table is restricted to the kept element names,
otherwise the tables are passed through; the result is a fresh container. -/
def filter_by_coordinate_system (sd : SpatialData) (csList : List String)
    (filter_tables : Bool) : SpatialData :=
  let ri := filterColl csList sd.images []
  let rl := filterColl csList sd.labels ri.2
  let rp := filterColl csList sd.points rl.2
  let rs := filterColl csList sd.shapes rp.2
  let tables :=
    if filter_tables then
      sd.tables.map (fun p => (p.1, filter_table_by_elements p.2 rs.2))
    else sd.tables
  { images := ri.1, labels := rl.1, points := rp.1, shapes := rs.1,
    tables := tables, path := none }

/-- Validation loop of `rename_coordinate_systems`: every rename source must
be a live coordinate system and no rename target may collide with a name in
`new_names`, which starts as the live systems not renamed away and grows
with each processed target. -/
def validateRename (old_names : List String) :
    List (String × String) → List String → Option String
  | [], _ => none
  | (oldCs, newCs) :: rest, new_names =>
      if ¬ old_names.contains oldCs then
        some ("Coordinate system " ++ oldCs ++ " does not exist.")
      else if new_names.contains newCs then
        some "It is not allowed to rename a coordinate system if the new name already exists and if it is not renamed in the same call."
      else validateRename old_names rest (new_names ++ [newCs])

/-- First loop of the per-element rename: each rename source present in the
mapping is popped and re-inserted under the target name extended with a
random 8-character suffix (drawn here from the oracle `sfx`, indexed by the
position of the rename entry), and the suffixed name is recorded in
`suffixes_to_replace`. -/
def renameSuffixPhase (sfx : Nat → String) :
    Nat → List (String × String) → List (String × Transformation) → List String →
    List (String × Transformation) × List String
  | _, [], tm, sufs => (tm, sufs)
  | j, (oldCs, newCs) :: rest, tm, sufs =>
      match alookup tm oldCs with
      | none => renameSuffixPhase sfx (j + 1) rest tm sufs
      | some v =>
          renameSuffixPhase sfx (j + 1) rest
            (aset (apop tm oldCs) (newCs ++ sfx j) v) (sufs ++ [newCs ++ sfx j])

/-- Second loop of the per-element rename: rebuild the mapping in iteration
order, stripping the last 8 characters from each suffixed name (and removing
it from `suffixes_to_replace`), keeping every other entry as is. -/
def renameStripPhase :
    List (String × Transformation) → List String → List (String × Transformation) →
    List (String × Transformation)
  | [], _, acc => acc
  | (k, v) :: rest, sufs, acc =>
      if sufs.contains k then
        renameStripPhase rest (sufs.erase k) (aset acc (k.dropRight 8) v)
      else
        renameStripPhase rest sufs (aset acc k v)

/-- The per-element body of `rename_coordinate_systems`: suffix phase
followed by strip phase, starting from an empty rebuilt mapping. -/
def renameElementTransformations (rename : List (String × String)) (sfx : Nat → String)
    (tm : List (String × Transformation)) : List (String × Transformation) :=
  renameStripPhase (renameSuffixPhase sfx 0 rename tm []).1
    (renameSuffixPhase sfx 0 rename tm []).2 []

/-- The per-element rename at the element level: the transformation mapping
is rewritten, the payload untouched. -/
def renameElement (rename : List (String × String)) (sfx : Nat → String)
    (el : Element) : Element :=
  { el with transformations := renameElementTransformations rename sfx el.transformations }

/-- Application of the per-element rename to one collection; the suffix
oracle is keyed by element name (element names are unique in a container) so
each element draws its own suffixes. -/
def renameColl (rename : List (String × String)) (sfx : String → Nat → String)
    (coll : List (String × Element)) : List (String × Element) :=
  coll.map (fun p => (p.1, renameElement rename (sfx p.1) p.2))

/-- The `rename_coordinate_systems` method: validate the rename dict against
the live coordinate systems, then rewrite every spatial element mapping via
the suffix-and-strip collision-avoidance strategy.  Validation failures
return the error before any element is touched. -/
def rename_coordinate_systems (sd : SpatialData) (rename : List (String × String))
    (sfx : String → Nat → String) : Except String SpatialData :=
  match validateRename sd.coordinate_systems rename
      (sd.coordinate_systems.filter (fun c => ¬ (rename.map Prod.fst).contains c)) with
  | some e => .error e
  | none =>
      .ok { sd with
        images := renameColl rename sfx sd.images,
        labels := renameColl rename sfx sd.labels,
        points := renameColl rename sfx sd.points,
        shapes := renameColl rename sfx sd.shapes }

/-- Modelled from the spec: `set_transformation` with a single coordinate
system key replaces the mapping entry for that key (§4.3; the module
`spatialdata.transformations.operations` is not under src/). -/
def set_transformation (el : Element) (t : Transformation) (cs : String) : Element :=
  { el with transformations := aset el.transformations cs t }

/-- Modelled from the spec: `remove_transformation(..., remove_all=True)`
strips every coordinate-system mapping from the element (§4.3). -/
def remove_transformation_all (el : Element) : Element :=
  { el with transformations := [] }

/-- Modelled from the spec: `get_transformation_between_coordinate_systems`
resolves the transformation taking the element native space to the target
system; only the direct-mapping lookup is guaranteed by the source (§4.3,
§9), so the model returns the direct entry and fails otherwise. -/
def get_transformation_between_coordinate_systems (sd : SpatialData) (el : Element)
    (target : String) : Option Transformation :=
  alookup el.transformations target

/-- Modelled from the spec: `spatialdata.transform` (not under src/) returns
a new element whose payload reflects the effect of the transformation via
the abstract payload action `tf`; the input element is not mutated (§4.3).
The coordinate metadata of the result is immediately replaced by the
caller. -/
def transform (tf : Transformation → Nat → Nat) (el : Element) (t : Transformation) :
    Element :=
  { payload := tf t el.payload, transformations := el.transformations }

/-- The `transform_element_to_coordinate_system` method: compute the direct
transformation to the target system, apply it, strip all prior mappings and
install a single Identity mapping keyed by the target system. -/
def transform_element_to_coordinate_system (tf : Transformation → Nat → Nat)
    (sd : SpatialData) (el : Element) (target : String) : Except String Element :=
  match get_transformation_between_coordinate_systems sd el target with
  | none => .error ("No transformation mapping to " ++ target)
  | some t =>
      let transformed := transform tf el t
      let stripped := remove_transformation_all transformed
      .ok (set_transformation stripped Transformation.identity target)

/-- Monadic map of the element-level transform over one collection. -/
def transformColl (tf : Transformation → Nat → Nat) (sd : SpatialData)
    (target : String) :
    List (String × Element) → Except String (List (String × Element))
  | [] => .ok []
  | (n, e) :: rest => do
      let e2 ← transform_element_to_coordinate_system tf sd e target
      let rest2 ← transformColl tf sd target rest
      .ok ((n, e2) :: rest2)

/-- The `transform_to_coordinate_system` method: filter to the elements live
in the target system (tables passed through unfiltered), transform each
remaining element, and assemble a fresh container with the untouched
tables. -/
def transform_to_coordinate_system (tf : Transformation → Nat → Nat)
    (sd : SpatialData) (target : String) : Except String SpatialData := do
  let f := filter_by_coordinate_system sd [target] false
  let images ← transformColl tf f target f.images
  let labels ← transformColl tf f target f.labels
  let points ← transformColl tf f target f.points
  let shapes ← transformColl tf f target f.shapes
  .ok { images := images, labels := labels, points := points, shapes := shapes,
        tables := f.tables, path := none }

/-- Modelled from the spec: `get_table_keys` (models module, not under
src/) reads the region / region_key / instance_key triple from the table
metadata (§3); missing metadata is an error. -/
def get_table_keys (t : Table) : Except String (RegionSpec × String × String) :=
  match t.attrs with
  | none => .error "No spatialdata_attrs found in table.uns"
  | some a => .ok (a.region, a.region_key, a.instance_key)

/-- The `get_annotated_regions` static method: the regions component of the
table keys, as stored. -/
def get_annotated_regions (t : Table) : Except String RegionSpec :=
  (get_table_keys t).map (fun k => k.1)

/-- Column presence check mirroring `key in table.obs`. -/
def hasColumn (t : Table) (c : String) : Bool :=
  hasKey t.obs c

/-- Modelled from the spec: `check_target_region_column_symmetry` (models
module, not under src/) fails when the distinct values of the region_key
column are not a subset of the declared region set (§4.4); callers establish
column presence beforehand. -/
def check_target_region_column_symmetry (t : Table) (region_key : String)
    (region : RegionSpec) : Except String Unit :=
  let vals := (alookup t.obs region_key).getD []
  if vals.all (fun v => region.toList.contains v) then .ok ()
  else .error "Values of the region_key column are not a subset of the declared region set"

/-- The `_set_table_annotation_target` static method: check that the
region_key and instance_key columns exist in obs, check the region symmetry,
and only then write the triple into the table metadata. -/
def _set_table_annotation_target (t : Table) (region : RegionSpec)
    (region_key instance_key : String) : Except String Table :=
  if ¬ hasColumn t region_key then
    .error ("Specified region_key, " ++ region_key ++ ", not in table.obs")
  else if ¬ hasColumn t instance_key then
    .error ("Specified instance_key, " ++ instance_key ++ ", not in table.obs")
  else
    match check_target_region_column_symmetry t region_key region with
    | .error e => .error e
    | .ok _ =>
        .ok { t with
              attrs := some { region := region, region_key := region_key,
                              instance_key := instance_key } }

/-- Modelled from the spec: `TableModel._validate_set_instance_key` (models
module, not under src/); per the table contract (§3) a provided instance
key must name an existing obs column and is written into the metadata,
while omitting it leaves the metadata unchanged. -/
def _validate_set_instance_key (t : Table) (instance_key : Option String) :
    Except String Table :=
  match instance_key with
  | none => .ok t
  | some ik =>
      if hasColumn t ik then
        .ok { t with attrs := t.attrs.map (fun a => { a with instance_key := ik }) }
      else .error ("Specified instance_key " ++ ik ++ " not in table.obs")

/-- The `_change_table_annotation_target` static method: with existing
metadata, reuse the stored region_key when none is provided (failing when
the stored key is empty or its column is missing), validate the optional
instance key, re-check symmetry against the stored region_key, and commit
the new region. -/
def _change_table_annotation_target (t : Table) (region : RegionSpec)
    (region_key instance_key : Option String) : Except String Table :=
  match t.attrs with
  | none => .error "KeyError: spatialdata_attrs"
  | some a =>
      match region_key with
      | none =>
          if a.region_key = "" then
            .error "No region_key in table.uns and no region_key provided as argument."
          else if ¬ hasColumn t a.region_key then
            .error "Specified region_key in table.uns is not present as column in table.obs."
          else do
            let t1 ← _validate_set_instance_key t instance_key
            let _ ← check_target_region_column_symmetry t1 a.region_key region
            .ok { t1 with attrs := t1.attrs.map (fun b => { b with region := region }) }
      | some rk =>
          if ¬ hasColumn t rk then
            .error (rk ++ " column not present in table.obs")
          else do
            let t1 ← _validate_set_instance_key t instance_key
            let _ ← check_target_region_column_symmetry t1 a.region_key region
            .ok { t1 with attrs := t1.attrs.map (fun b => { b with region := region }) }

/-- The `set_table_annotates_spatialelement` method: look up the table,
require the region to be the name of a spatial element (tables are excluded
from the candidate names), then dispatch to the change or set path depending
on whether annotation metadata is already present. -/
def set_table_annotates_spatialelement (sd : SpatialData) (table_name : String)
    (region : String) (region_key instance_key : Option String) :
    Except String SpatialData :=
  match alookup sd.tables table_name with
  | none => .error ("KeyError: " ++ table_name)
  | some table =>
      let element_names := sd.spatialElementNames
      if ¬ element_names.contains region then
        .error ("Annotation target " ++ region ++
          " not present as SpatialElement in SpatialData object.")
      else
        match table.attrs with
        | some _ => do
            let t2 ← _change_table_annotation_target table (RegionSpec.one region)
              region_key instance_key
            .ok { sd with tables := aset sd.tables table_name t2 }
        | none =>
            match region_key, instance_key with
            | some rk, some ik => do
                let t2 ← _set_table_annotation_target table (RegionSpec.one region) rk ik
                .ok { sd with tables := aset sd.tables table_name t2 }
            | _, _ =>
                .error "TypeError: No current annotation metadata found. Please specify both region_key and instance_key."

/-- Modelled from the spec: `TableModel.validate` (models module, not under
src/) performs the schema validation of a table, failing when required
columns are absent: with annotation metadata present, the region_key and
instance_key columns must exist in obs (§4.4). -/
def TableModel_validate (t : Table) : Except String Unit :=
  match t.attrs with
  | none => .ok ()
  | some a =>
      if ¬ hasColumn t a.region_key then
        .error ("Regions key " ++ a.region_key ++ " not found in table.obs")
      else if ¬ hasColumn t a.instance_key then
        .error ("Instance key " ++ a.instance_key ++ " not found in table.obs")
      else .ok ()

/-- The `validate_table_in_spatialdata` method: schema-validate the table,
then, when annotation metadata is present and some referenced region name is
not among the spatial element names, emit a non-fatal warning; the returned
list holds the warnings emitted. -/
def validate_table_in_spatialdata (sd : SpatialData) (t : Table) :
    Except String (List String) :=
  match TableModel_validate t with
  | .error e => .error e
  | .ok _ =>
      let element_names := sd.spatialElementNames
      match t.attrs with
      | none => .ok []
      | some a =>
          if (a.region.toList).all (fun r => element_names.contains r) then .ok []
          else
            .ok ["The table is annotating an/some element(s) not present in the SpatialData object"]

/-- The `is_backed` method: whether a backing path is bound. -/
def SpatialData.is_backed (sd : SpatialData) : Bool :=
  sd.path.isSome

/-- Writing loop over the names of one collection, each element written
through the collaborator writer `w`. -/
def writeCollLoop (w : String → String → Except String Unit) (elementType : String) :
    List String → Except String Unit
  | [] => .ok ()
  | n :: rest => do
      let _ ← w elementType n
      writeCollLoop w elementType rest

/-- The element-writing body of `write` (the try block): the collections are
written in the source order images, labels, points, shapes, tables, each
element through the collaborator writer `w` (the `write_image`,
`write_labels`, `write_points`, `write_shapes`, `write_table` calls with
their zarr group handling), stopping at the first raised exception. -/
def writeElements (w : String → String → Except String Unit) (sd : SpatialData) :
    Except String Unit := do
  let _ ← writeCollLoop w "images" (akeys sd.images)
  let _ ← writeCollLoop w "labels" (akeys sd.labels)
  let _ ← writeCollLoop w "points" (akeys sd.points)
  let _ ← writeCollLoop w "shapes" (akeys sd.shapes)
  writeCollLoop w "tables" (akeys sd.tables)

/-- The `write` method: the pre-checks on an existing target path raise
without touching the backing path; otherwise the backing path is bound to
the target before the elements are written, and an exception raised while
writing elements unbinds the backing path and is re-raised.  The returned
pair is the container state after the call and the propagated exception, if
any. -/
def SpatialData.write (sd : SpatialData) (file_path : String)
    (fileExists isZarrStore overwrite : Bool)
    (w : String → String → Except String Unit) : SpatialData × Option String :=
  if fileExists then
    if ¬ isZarrStore then
      (sd, some "The target file path specified already exists and it has been detected to not be a Zarr store.")
    else if ¬ overwrite ∧ sd.path ≠ some file_path then
      (sd, some "The Zarr store already exists. Use overwrite to overwrite the store.")
    else
      (sd, some "The file path specified is the same as the one used for backing.")
  else
    let sd1 := { sd with path := some file_path }
    match writeElements w sd1 with
    | .error e => ({ sd1 with path := none }, some e)
    | .ok _ => (sd1, none)

/-- Payload of a persisted element: a spatial element or a table. -/
inductive StoredPayload where
  | spatial (e : Element)
  | table (t : Table)

/-- One entry of a persisted store: an element that reads successfully, or a
corrupted element whose read raises an error of the given kind. -/
inductive StoredEntry where
  | good (elementType name : String) (payload : StoredPayload)
  | corrupted (elementType name : String) (errorKind : String)

/-- Predicate selecting the corrupted entries of a store. -/
def StoredEntry.isCorrupted : StoredEntry → Bool
  | .good _ _ _ => false
  | .corrupted _ _ _ => true

/-- The empty container. -/
def emptySpatialData : SpatialData :=
  { images := [], labels := [], points := [], shapes := [], tables := [], path := none }

/-- Routing of a successfully read element into the container collection
named by its element type. -/
def insertElement (sd : SpatialData) (elementType name : String)
    (p : StoredPayload) : SpatialData :=
  match p with
  | .table t => { sd with tables := aset sd.tables name t }
  | .spatial e =>
      if elementType = "images" then { sd with images := aset sd.images name e }
      else if elementType = "labels" then { sd with labels := aset sd.labels name e }
      else if elementType = "points" then { sd with points := aset sd.points name e }
      else { sd with shapes := aset sd.shapes name e }

/-- Modelled from the spec: the warn-mode loop of the fault-isolating store
reader (§4.6): elements are read one by one; a failing element produces a
warning naming the element path and the underlying error kind and is
excluded; reading continues with the next element. -/
def readZarrWarnLoop :
    List StoredEntry → SpatialData → List String → SpatialData × List String
  | [], sd, warns => (sd, warns)
  | .good ty n p :: rest, sd, warns =>
      readZarrWarnLoop rest (insertElement sd ty n p) warns
  | .corrupted ty n kind :: rest, sd, warns =>
      readZarrWarnLoop rest sd (warns ++ [ty ++ "/" ++ n ++ ": " ++ kind])

/-- Modelled from the spec: the integrity pass after a warn-mode read: every
loaded table is checked non-fatally against the loaded elements and the
resulting warnings are collected (§4.6, §4.4). -/
def integrityWarnings (sd : SpatialData) : List String :=
  sd.tables.flatMap (fun p =>
    match validate_table_in_spatialdata sd p.2 with
    | .ok ws => ws
    | .error e => [e])

/-- First error kind raised by a store, in read order. -/
def firstCorruption : List StoredEntry → Option String
  | [] => none
  | .good _ _ _ :: rest => firstCorruption rest
  | .corrupted _ _ kind :: _ => some kind

/-- Modelled from the spec: `read_zarr` (the `spatialdata._io` reader, not
under src/) per §4.6: with `on_bad_files="error"` the first element failure
aborts the whole read propagating the underlying error; with
`on_bad_files="warn"` failures are isolated per element and the container of
the successfully read elements is returned together with the emitted
warnings, followed by the non-fatal integrity warnings. -/
def read_zarr (store : List StoredEntry) (on_bad_files : String) :
    Except String (SpatialData × List String) :=
  if on_bad_files = "error" then
    match firstCorruption store with
    | some kind => .error kind
    | none =>
        let r := readZarrWarnLoop store emptySpatialData []
        .ok (r.1, r.2 ++ integrityWarnings r.1)
  else
    let r := readZarrWarnLoop store emptySpatialData []
    .ok (r.1, r.2 ++ integrityWarnings r.1)

/-- Names of every element of a container, spatial elements and tables. -/
def SpatialData.allElementNames (sd : SpatialData) : List String :=
  sd.spatialElementNames ++ akeys sd.tables

/-- Specification-side characterization of the filter predicate: an element
is kept iff its transformation mapping contains at least one requested
coordinate system. -/
def keepElement (csList : List String) (el : Element) : Bool :=
  csList.any (fun c => hasKey el.transformations c)

/-- The requested coordinate systems an element is live in, in request
order. -/
def matchedSystems (csList : List String) (el : Element) : List String :=
  csList.filter (fun c => hasKey el.transformations c)

/-- Names appended to `element_paths_in_coordinate_system` while scanning a
collection: one copy of the element name per matching requested system. -/
def pathsOf (csList : List String) (coll : List (String × Element)) : List String :=
  coll.flatMap (fun q => (matchedSystems csList q.2).map (fun _ => q.1))

/-- Specification-side list of kept element names: the names of the spatial
elements whose transformation mapping meets the requested systems. -/
def keptElementNames (sd : SpatialData) (csList : List String) : List String :=
  (sd.spatialElements.filter (fun q => keepElement csList q.2.2)).map (fun q => q.2.1)

/-! Concrete data used by the witness theorems. -/

/-- Element live in systems A, B and C. -/
def exElementABC : Element :=
  { payload := 0,
    transformations :=
      [("A", Transformation.identity), ("B", Transformation.scale [2]),
       ("C", Transformation.translation [1])] }

/-- Element live in system B only. -/
def exElementB : Element :=
  { payload := 1, transformations := [("B", Transformation.identity)] }

/-- Element live in system A only. -/
def exElementA : Element :=
  { payload := 2, transformations := [("A", Transformation.identity)] }

/-- Table annotating the region `cells` through the `region` and `id`
columns. -/
def exTable : Table :=
  { obs := [("region", ["cells", "cells"]), ("id", ["0", "1"])],
    attrs := none }

/-- Table carrying annotation metadata that references the region `ghost`. -/
def exTableGhost : Table :=
  { obs := [("region", ["ghost"]), ("id", ["0"])],
    attrs := some { region := RegionSpec.one "ghost", region_key := "region",
                    instance_key := "id" } }

/-- Container with two spatial elements and one table. -/
def exSd : SpatialData :=
  { images := [("im", exElementABC)], labels := [("cells", exElementB)],
    points := [], shapes := [], tables := [("t", exTable)], path := none }

/-- Suffix oracle used by the rename witnesses: entry 0 draws the suffix of
zeros, every other entry the suffix of ones. -/
def exSfx : String → Nat → String :=
  fun _ j => if j = 0 then "00000000" else "11111111"

/-- Writer that fails on every element. -/
def exFailWriter : String → String → Except String Unit :=
  fun _ _ => Except.error "disk full"

/-- Store with one good labels element, one corrupted image and one good
table. -/
def exStore : List StoredEntry :=
  [StoredEntry.good "labels" "cells" (StoredPayload.spatial exElementB),
   StoredEntry.corrupted "images" "img" "JSONDecodeError",
   StoredEntry.good "tables" "t" (StoredPayload.table exTable)]

/-! Association-list lemmas. -/

theorem contains_iff_mem {l : List String} {a : String} :
    l.contains a = true ↔ a ∈ l := by
  simp

theorem alookup_append_left {α : Type} {l1 : List (String × α)} {k : String} {v : α}
    (l2 : List (String × α)) (h : alookup l1 k = some v) :
    alookup (l1 ++ l2) k = some v := by
  induction l1 with
  | nil => simp [alookup] at h
  | cons p rest ih =>
      by_cases hk : p.1 = k
      · simpa [alookup, hk] using h
      · simp only [alookup, hk, if_neg, List.cons_append] at h ⊢
        exact ih h

theorem alookup_append_right {α : Type} {l1 : List (String × α)} {k : String}
    (l2 : List (String × α)) (h : alookup l1 k = none) :
    alookup (l1 ++ l2) k = alookup l2 k := by
  induction l1 with
  | nil => simp
  | cons p rest ih =>
      by_cases hk : p.1 = k
      · simp [alookup, hk] at h
      · simp only [alookup, hk, if_neg, List.cons_append] at h ⊢
        exact ih h

theorem alookup_eq_none_iff {α : Type} {l : List (String × α)} {k : String} :
    alookup l k = none ↔ k ∉ akeys l := by
  induction l with
  | nil => simp [alookup, akeys]
  | cons p rest ih =>
      by_cases hk : p.1 = k
      · simp [alookup, akeys, hk]
      · simp [alookup, akeys, hk, ih, Ne.symm hk]

theorem alookup_mem {α : Type} {l : List (String × α)} {k : String} {v : α}
    (h : alookup l k = some v) : (k, v) ∈ l := by
  induction l with
  | nil => simp [alookup] at h
  | cons p rest ih =>
      by_cases hk : p.1 = k
      · simp only [alookup, hk, if_pos] at h
        cases h
        rw [← hk]
        exact List.mem_cons_self _ _
      · simp only [alookup, hk, if_neg] at h
        exact List.mem_cons_of_mem _ (ih h)

theorem apop_not_mem {α : Type} {l : List (String × α)} {k : String}
    (h : k ∉ akeys l) : apop l k = l := by
  induction l with
  | nil => rfl
  | cons p rest ih =>
      simp only [akeys, List.map_cons, List.mem_cons] at h
      push_neg at h
      simp [apop, Ne.symm h.1, ih (by simpa [akeys] using h.2)]

theorem alookup_apop_ne {α : Type} {l : List (String × α)} {k k2 : String}
    (h : k2 ≠ k) : alookup (apop l k) k2 = alookup l k2 := by
  have hkk : ¬ (k = k2) := fun hh => h hh.symm
  induction l with
  | nil => rfl
  | cons p rest ih =>
      by_cases hk : p.1 = k
      · simp [apop, alookup, hk, hkk]
      · simp [apop, alookup, hk, ih]

theorem alookup_apop_self {α : Type} {l : List (String × α)} {k : String}
    (h : (akeys l).Nodup) : alookup (apop l k) k = none := by
  induction l with
  | nil => rfl
  | cons p rest ih =>
      simp only [akeys, List.map_cons, List.nodup_cons] at h
      by_cases hk : p.1 = k
      · rw [apop, if_pos hk, alookup_eq_none_iff]
        exact hk ▸ h.1
      · simp only [apop, hk, if_neg, alookup, if_neg]
        exact ih h.2

theorem mem_akeys_apop {α : Type} {l : List (String × α)} {k m : String}
    (h : m ∈ akeys (apop l k)) : m ∈ akeys l := by
  induction l with
  | nil => simpa [apop] using h
  | cons p rest ih =>
      by_cases hk : p.1 = k
      · simp only [apop, if_pos hk] at h
        exact List.mem_cons_of_mem _ h
      · simp only [apop, if_neg hk] at h
        simp only [akeys, List.map_cons, List.mem_cons] at h ⊢
        rcases h with h | h
        · exact Or.inl h
        · exact Or.inr (ih h)

theorem length_apop {α : Type} {l : List (String × α)} {k : String} {v : α}
    (h : alookup l k = some v) : (apop l k).length + 1 = l.length := by
  induction l with
  | nil => simp [alookup] at h
  | cons p rest ih =>
      by_cases hk : p.1 = k
      · simp [apop, hk]
      · simp only [alookup, hk, if_neg] at h
        simp [apop, hk, ← ih h]

theorem nodup_akeys_apop {α : Type} {l : List (String × α)} {k : String}
    (h : (akeys l).Nodup) : (akeys (apop l k)).Nodup := by
  induction l with
  | nil => simpa [apop] using h
  | cons p rest ih =>
      simp only [akeys, List.map_cons, List.nodup_cons] at h
      by_cases hk : p.1 = k
      · simpa [apop, hk, akeys] using h.2
      · simp only [apop, if_neg hk, akeys, List.map_cons, List.nodup_cons]
        refine ⟨fun hm => h.1 ?_, ih h.2⟩
        exact mem_akeys_apop hm

theorem aset_not_mem {α : Type} {l : List (String × α)} {k : String} (v : α)
    (h : k ∉ akeys l) : aset l k v = l ++ [(k, v)] := by
  induction l with
  | nil => rfl
  | cons p rest ih =>
      simp only [akeys, List.map_cons, List.mem_cons] at h
      push_neg at h
      simp [aset, Ne.symm h.1, ih (by simpa [akeys] using h.2)]

theorem aset_lookup_same {α : Type} {l : List (String × α)} {k : String} {v : α}
    (h : alookup l k = some v) : aset l k v = l := by
  induction l with
  | nil => simp [alookup] at h
  | cons p rest ih =>
      obtain ⟨a, b⟩ := p
      by_cases hk : a = k
      · simp only [alookup, if_pos hk] at h
        cases h
        simp [aset, hk]
      · simp only [alookup, if_neg hk] at h
        simp [aset, hk, ih h]

theorem alookup_aset_self {α : Type} (l : List (String × α)) (k : String) (v : α) :
    alookup (aset l k v) k = some v := by
  induction l with
  | nil => simp [aset, alookup]
  | cons p rest ih =>
      by_cases hk : p.1 = k
      · simp [aset, alookup, hk]
      · simp [aset, alookup, hk, ih]

theorem alookup_aset_ne {α : Type} {l : List (String × α)} {k k2 : String} (v : α)
    (h : k2 ≠ k) : alookup (aset l k v) k2 = alookup l k2 := by
  have hkk : ¬ (k = k2) := fun hh => h hh.symm
  induction l with
  | nil => simp [aset, alookup, hkk]
  | cons p rest ih =>
      by_cases hk : p.1 = k
      · simp [aset, alookup, hk, hkk]
      · simp [aset, alookup, hk, ih]

theorem mem_akeys_aset {α : Type} {l : List (String × α)} {k m : String} {v : α} :
    m ∈ akeys (aset l k v) ↔ m = k ∨ m ∈ akeys l := by
  induction l with
  | nil => simp [aset, akeys]
  | cons p rest ih =>
      obtain ⟨a, b⟩ := p
      by_cases hk : a = k
      · subst hk
        simp [aset, akeys]
      · simp only [aset, if_neg hk, akeys, List.map_cons, List.mem_cons]
        simp only [akeys] at ih
        tauto

theorem mem_aset_elim {α : Type} {l : List (String × α)} {k : String} {v : α}
    {p : String × α} (h : p ∈ aset l k v) : p ∈ l ∨ p = (k, v) := by
  induction l with
  | nil => simpa [aset] using h
  | cons q rest ih =>
      obtain ⟨a, b⟩ := q
      by_cases hk : a = k
      · simp only [aset, if_pos hk, List.mem_cons] at h
        rcases h with h | h
        · right
          rw [h, hk]
        · left
          exact List.mem_cons_of_mem _ h
      · simp only [aset, if_neg hk, List.mem_cons] at h
        rcases h with h | h
        · exact Or.inl (h ▸ List.mem_cons_self _ _)
        · rcases ih h with h2 | h2
          · exact Or.inl (List.mem_cons_of_mem _ h2)
          · exact Or.inr h2

theorem hasKey_iff_mem_akeys {α : Type} {l : List (String × α)} {k : String} :
    hasKey l k = true ↔ k ∈ akeys l := by
  rw [hasKey]
  cases hl : alookup l k with
  | none => simpa using alookup_eq_none_iff.mp hl
  | some v =>
      simp only [Option.isSome_some, true_iff]
      by_contra hmem
      rw [alookup_eq_none_iff.mpr hmem] at hl
      cases hl

theorem all_contains_iff {vals names : List String} :
    (vals.all (fun v => names.contains v) = true) ↔ ∀ v ∈ vals, v ∈ names := by
  rw [List.all_eq_true]
  constructor
  · intro h v hv
    exact contains_iff_mem.mp (h v hv)
  · intro h v hv
    exact contains_iff_mem.mpr (h v hv)

/-! C8: rollback of the backing path on a mid-write exception. -/

/-- C8: for every container and target path, when writing the elements
raises an exception, the backing-path binding is unbound afterwards
(`is_backed` is false and `path` is `none`) and the original exception is
re-raised. -/
theorem write_unbinds_on_element_error (sd : SpatialData) (file_path : String)
    (isZarrStore overwrite : Bool) (w : String → String → Except String Unit)
    (e : String) (h : writeElements w sd = Except.error e) :
    (sd.write file_path false isZarrStore overwrite w).1.path = none ∧
    (sd.write file_path false isZarrStore overwrite w).1.is_backed = false ∧
    (sd.write file_path false isZarrStore overwrite w).2 = some e := by
  have h2 : writeElements w { sd with path := some file_path } = Except.error e := h
  refine ⟨?_, ?_, ?_⟩ <;>
    simp [SpatialData.write, h2, SpatialData.is_backed]

/-- Witness for C8 at a concrete container and failing writer. -/
theorem write_unbinds_on_element_error_witness :
    writeElements exFailWriter exSd = Except.error "disk full" ∧
    ((exSd.write "out.zarr" false true false exFailWriter).1.path = none ∧
     (exSd.write "out.zarr" false true false exFailWriter).1.is_backed = false ∧
     (exSd.write "out.zarr" false true false exFailWriter).2 = some "disk full") :=
  ⟨rfl, write_unbinds_on_element_error exSd "out.zarr" true false exFailWriter
    "disk full" rfl⟩

/-! C4: validation failures of `rename_coordinate_systems`. -/

theorem validateRename_error_aux (old_names srcs : List String)
    (rename : List (String × String)) :
    ∀ (new_names : List String),
    (∀ c, c ∈ old_names → c ∉ srcs → c ∈ new_names) →
    ((∃ p ∈ rename, p.1 ∉ old_names) ∨
     (∃ p ∈ rename, p.2 ∈ old_names ∧ p.2 ∉ srcs)) →
    (validateRename old_names rename new_names).isSome = true := by
  induction rename with
  | nil =>
      intro new_names _ hbad
      rcases hbad with ⟨p, hp, _⟩ | ⟨p, hp, _⟩ <;> simp at hp
  | cons q rest ih =>
      intro new_names hsub hbad
      by_cases h1 : q.1 ∈ old_names
      · by_cases h2 : q.2 ∈ new_names
        · simp [validateRename, h1, h2]
        · have hrec : (∃ p ∈ rest, p.1 ∉ old_names) ∨
              (∃ p ∈ rest, p.2 ∈ old_names ∧ p.2 ∉ srcs) := by
            rcases hbad with ⟨p, hp, hb⟩ | ⟨p, hp, hb⟩
            · rcases List.mem_cons.mp hp with hq | hp2
              · exact absurd h1 (hq ▸ hb)
              · exact Or.inl ⟨p, hp2, hb⟩
            · rcases List.mem_cons.mp hp with hq | hp2
              · subst hq
                exact absurd (hsub _ hb.1 hb.2) h2
              · exact Or.inr ⟨p, hp2, hb⟩
          have hsub2 : ∀ c, c ∈ old_names → c ∉ srcs → c ∈ new_names ++ [q.2] :=
            fun c hc hn => List.mem_append_left _ (hsub c hc hn)
          have := ih (new_names ++ [q.2]) hsub2 hrec
          simpa [validateRename, h1, h2] using this
      · simp [validateRename, h1]

/-- C4: `rename_coordinate_systems` raises ValueError when some rename
source is not a live coordinate system, or when some rename target equals a
coordinate-system name that is not itself a rename source in the same call;
the error is returned before any element mapping is rewritten. -/
theorem rename_coordinate_systems_validation_error (sd : SpatialData)
    (rename : List (String × String)) (sfx : String → Nat → String)
    (hbad : (∃ p ∈ rename, p.1 ∉ sd.coordinate_systems) ∨
            (∃ p ∈ rename, p.2 ∈ sd.coordinate_systems ∧
              p.2 ∉ rename.map Prod.fst)) :
    ∃ e, rename_coordinate_systems sd rename sfx = Except.error e := by
  have hsub : ∀ c, c ∈ sd.coordinate_systems → c ∉ rename.map Prod.fst →
      c ∈ sd.coordinate_systems.filter
        (fun c => ¬ (rename.map Prod.fst).contains c) := by
    intro c hc hn
    refine List.mem_filter.mpr ⟨hc, ?_⟩
    simp [hn]
  have h := validateRename_error_aux sd.coordinate_systems (rename.map Prod.fst)
    rename (sd.coordinate_systems.filter (fun c => ¬ (rename.map Prod.fst).contains c))
    hsub hbad
  obtain ⟨e, he⟩ := Option.isSome_iff_exists.mp h
  refine ⟨e, ?_⟩
  unfold rename_coordinate_systems
  rw [he]

/-- Witness for C4: renaming a non-live source fails on a concrete
container. -/
theorem rename_coordinate_systems_validation_error_witness :
    ((∃ p ∈ [("X", "Y")], p.1 ∉ exSd.coordinate_systems) ∨
     (∃ p ∈ [("X", "Y")], p.2 ∈ exSd.coordinate_systems ∧
       p.2 ∉ [("X", "Y")].map Prod.fst)) ∧
    ∃ e, rename_coordinate_systems exSd [("X", "Y")] exSfx = Except.error e :=
  ⟨Or.inl (by decide),
   rename_coordinate_systems_validation_error exSd [("X", "Y")] exSfx
     (Or.inl (by decide))⟩

/-! C10: annotation targets must be spatial elements. -/

/-- C10: `set_table_annotates_spatialelement` raises ValueError whenever the
region string is not the name of any spatial element of the container
(tables are excluded from the candidate names), before touching any
metadata. -/
theorem set_table_annotates_requires_spatial (sd : SpatialData)
    (table_name region : String) (rk ik : Option String) (t : Table)
    (htab : alookup sd.tables table_name = some t)
    (hreg : region ∉ sd.spatialElementNames) :
    set_table_annotates_spatialelement sd table_name region rk ik =
      Except.error ("Annotation target " ++ region ++
        " not present as SpatialElement in SpatialData object.") := by
  unfold set_table_annotates_spatialelement
  rw [htab]
  simp [hreg]

/-- Witness for C10 at a container in which the requested region name is a
table name but not a spatial element name. -/
theorem set_table_annotates_requires_spatial_witness :
    alookup exSd.tables "t" = some exTable ∧
    "t" ∉ exSd.spatialElementNames ∧
    set_table_annotates_spatialelement exSd "t" "t" (some "region") (some "id") =
      Except.error ("Annotation target " ++ "t" ++
        " not present as SpatialElement in SpatialData object.") :=
  ⟨rfl, by decide,
   set_table_annotates_requires_spatial exSd "t" "t" (some "region") (some "id")
     exTable rfl (by decide)⟩

/-! C5: setting a table annotation target. -/

/-- C5: `_set_table_annotation_target` succeeds exactly when the region_key
and instance_key columns exist in the table obs and every region_key column
value is among the declared regions; on success it writes the triple into
the table metadata, leaves the rows untouched, and the declared regions are
retrievable via `get_annotated_regions`. -/
theorem set_annotation_target_spec (t : Table) (region : RegionSpec)
    (rk ik : String) :
    ((_set_table_annotation_target t region rk ik).isOk = true ↔
      (hasColumn t rk = true ∧ hasColumn t ik = true ∧
        ∀ v ∈ (alookup t.obs rk).getD [], v ∈ region.toList)) ∧
    (∀ t2, _set_table_annotation_target t region rk ik = Except.ok t2 →
      t2.attrs = some { region := region, region_key := rk, instance_key := ik } ∧
      get_annotated_regions t2 = Except.ok region ∧ t2.obs = t.obs) := by
  by_cases h1 : hasColumn t rk = true
  · by_cases h2 : hasColumn t ik = true
    · by_cases h3 : ∀ v ∈ (alookup t.obs rk).getD [], v ∈ region.toList
      · have heq : _set_table_annotation_target t region rk ik =
            Except.ok { t with attrs := some { region := region, region_key := rk, instance_key := ik } } := by
          simp only [_set_table_annotation_target, check_target_region_column_symmetry,
            h1, h2, not_true, if_false, if_neg, Bool.not_eq_true]
          simp [h1, h2]
          rw [if_pos h3]
        rw [heq]
        refine ⟨?_, ?_⟩
        · constructor
          · intro _
            exact ⟨h1, h2, h3⟩
          · intro _
            rfl
        · intro t2 ht2
          cases ht2
          exact ⟨rfl, by simp [get_annotated_regions, get_table_keys, Except.map], rfl⟩
      · have heq : _set_table_annotation_target t region rk ik =
            Except.error "Values of the region_key column are not a subset of the declared region set" := by
          simp [_set_table_annotation_target, check_target_region_column_symmetry,
            h1, h2]
          rw [if_neg h3]
        rw [heq]
        refine ⟨?_, ?_⟩
        · simp [Except.isOk, Except.toBool, h3]
        · intro t2 ht2
          simp at ht2
    · have heq : _set_table_annotation_target t region rk ik =
          Except.error ("Specified instance_key, " ++ ik ++ ", not in table.obs") := by
        simp [_set_table_annotation_target, h1, h2]
      rw [heq]
      refine ⟨?_, ?_⟩
      · simp [Except.isOk, Except.toBool, h2]
      · intro t2 ht2
        simp at ht2
  · have heq : _set_table_annotation_target t region rk ik =
        Except.error ("Specified region_key, " ++ rk ++ ", not in table.obs") := by
      simp [_set_table_annotation_target, h1]
    rw [heq]
    refine ⟨?_, ?_⟩
    · simp [Except.isOk, Except.toBool, h1]
    · intro t2 ht2
      simp at ht2

/-- Witness for C5: the success side at the spec scenario (a table whose
region_key column holds only `cells`, annotating the region `cells`). -/
theorem set_annotation_target_spec_witness :
    (_set_table_annotation_target exTable (RegionSpec.one "cells") "region" "id").isOk
      = true :=
  (set_annotation_target_spec exTable (RegionSpec.one "cells") "region" "id").1.mpr
    (by decide)

/-! C6: the container-level table validation never raises on absent
regions. -/

/-- C6: for every table passing schema validation whose declared regions
include a name absent from the spatial elements of the container,
`validate_table_in_spatialdata` returns normally with the non-fatal warning
instead of raising. -/
theorem validate_table_warns_not_raises (sd : SpatialData) (t : Table)
    (a : TableAttrs)
    (hval : TableModel_validate t = Except.ok ())
    (hattrs : t.attrs = some a)
    (hmiss : ∃ r ∈ a.region.toList, r ∉ sd.spatialElementNames) :
    validate_table_in_spatialdata sd t =
      Except.ok ["The table is annotating an/some element(s) not present in the SpatialData object"] := by
  obtain ⟨r, hr, hnot⟩ := hmiss
  unfold validate_table_in_spatialdata
  rw [hval, hattrs]
  simp
  exact ⟨r, hr, hnot⟩

/-- Witness for C6 at a table annotating the region `ghost`, absent from the
empty container. -/
theorem validate_table_warns_not_raises_witness :
    TableModel_validate exTableGhost = Except.ok () ∧
    exTableGhost.attrs = some { region := RegionSpec.one "ghost", region_key := "region", instance_key := "id" } ∧
    (∃ r ∈ (RegionSpec.one "ghost").toList,
      r ∉ emptySpatialData.spatialElementNames) ∧
    validate_table_in_spatialdata emptySpatialData exTableGhost =
      Except.ok ["The table is annotating an/some element(s) not present in the SpatialData object"] :=
  ⟨rfl, rfl, by decide,
   validate_table_warns_not_raises emptySpatialData exTableGhost _ rfl rfl (by decide)⟩

/-! C3 and C9: `transform_to_coordinate_system`. -/

theorem keepElement_singleton {target : String} {el : Element} :
    keepElement [target] el = hasKey el.transformations target := by
  simp [keepElement]

theorem filterEntry_mem (csList : List String) (ename : String) (el : Element)
    (acc : List (String × Element) × List String) :
    ∀ p ∈ (filterEntry csList ename el acc).1,
      p ∈ acc.1 ∨ (p = (ename, el) ∧ keepElement csList el = true) := by
  induction csList generalizing acc with
  | nil =>
      intro p hp
      exact Or.inl hp
  | cons c rest ih =>
      intro p hp
      by_cases hc : hasKey el.transformations c = true
      · have hstep : filterEntry (c :: rest) ename el acc =
            filterEntry rest ename el (aset acc.1 ename el, acc.2 ++ [ename]) := by
          simp [filterEntry, hc]
        rw [hstep] at hp
        rcases ih _ p hp with h | h
        · rcases mem_aset_elim h with h2 | h2
          · exact Or.inl h2
          · exact Or.inr ⟨h2, by simp [keepElement, hc]⟩
        · exact Or.inr ⟨h.1, by simp [keepElement, hc]⟩
      · have hstep : filterEntry (c :: rest) ename el acc =
            filterEntry rest ename el acc := by
          simp [filterEntry, hc]
        rw [hstep] at hp
        rcases ih acc p hp with h | h
        · exact Or.inl h
        · refine Or.inr ⟨h.1, ?_⟩
          have h2 := h.2
          simp only [keepElement] at h2 ⊢
          simp [List.any_cons, h2]

theorem filterFold_mem (csList : List String) (coll : List (String × Element)) :
    ∀ (acc : List (String × Element) × List String),
    (∀ p ∈ acc.1, keepElement csList p.2 = true) →
    ∀ p ∈ (coll.foldl (fun a q => filterEntry csList q.1 q.2 a) acc).1,
      keepElement csList p.2 = true := by
  induction coll with
  | nil =>
      intro acc hacc p hp
      exact hacc p hp
  | cons q rest ih =>
      intro acc hacc p hp
      rw [List.foldl_cons] at hp
      refine ih _ ?_ p hp
      intro r hr
      rcases filterEntry_mem csList q.1 q.2 acc r hr with h | h
      · exact hacc r h
      · rw [h.1]
        exact h.2

theorem filterColl_mem (csList : List String) (coll : List (String × Element))
    (paths : List String) :
    ∀ p ∈ (filterColl csList coll paths).1, keepElement csList p.2 = true := by
  intro p hp
  refine filterFold_mem csList coll ([], paths) ?_ p hp
  intro r hr
  simp at hr

theorem transformColl_ok (tf : Transformation → Nat → Nat) (sd : SpatialData)
    (target : String) (coll : List (String × Element))
    (h : ∀ p ∈ coll, hasKey p.2.transformations target = true) :
    ∃ out, transformColl tf sd target coll = Except.ok out ∧
      akeys out = akeys coll ∧
      ∀ p ∈ out, p.2.transformations = [(target, Transformation.identity)] := by
  induction coll with
  | nil =>
      refine ⟨[], rfl, rfl, ?_⟩
      intro p hp
      simp at hp
  | cons q rest ih =>
      obtain ⟨t, ht⟩ : ∃ t, alookup q.2.transformations target = some t := by
        have h0 := h q (List.mem_cons_self _ _)
        rw [hasKey] at h0
        exact Option.isSome_iff_exists.mp h0
      obtain ⟨out, hout, hk, hall⟩ := ih (fun p hp => h p (List.mem_cons_of_mem _ hp))
      refine ⟨(q.1, { payload := tf t q.2.payload, transformations := [(target, Transformation.identity)] }) :: out, ?_, ?_, ?_⟩
      · simp [transformColl, transform_element_to_coordinate_system,
          get_transformation_between_coordinate_systems, ht, hout, transform,
          remove_transformation_all, set_transformation, aset, Bind.bind, Except.bind]
      · simp [akeys] at hk ⊢
        exact hk
      · intro p hp
        rcases List.mem_cons.mp hp with h1 | h2
        · rw [h1]
        · exact hall p h2

theorem transform_to_cs_ok (tf : Transformation → Nat → Nat) (sd : SpatialData)
    (target : String) :
    ∃ sd2, transform_to_coordinate_system tf sd target = Except.ok sd2 ∧
      (∀ p ∈ sd2.spatialElements,
        p.2.2.transformations = [(target, Transformation.identity)]) ∧
      sd2.tables = sd.tables := by
  have hmem : ∀ (coll : List (String × Element)) (paths : List String),
      ∀ p ∈ (filterColl [target] coll paths).1,
        hasKey p.2.transformations target = true := by
    intro coll paths p hp
    have h0 := filterColl_mem [target] coll paths p hp
    rwa [keepElement_singleton] at h0
  obtain ⟨oi, hoi, hki, hpi⟩ := transformColl_ok tf
    (filter_by_coordinate_system sd [target] false) target
    (filter_by_coordinate_system sd [target] false).images (hmem sd.images _)
  obtain ⟨ol, hol, hkl, hpl⟩ := transformColl_ok tf
    (filter_by_coordinate_system sd [target] false) target
    (filter_by_coordinate_system sd [target] false).labels (hmem sd.labels _)
  obtain ⟨op, hop, hkp, hpp⟩ := transformColl_ok tf
    (filter_by_coordinate_system sd [target] false) target
    (filter_by_coordinate_system sd [target] false).points (hmem sd.points _)
  obtain ⟨os, hos, hks, hps⟩ := transformColl_ok tf
    (filter_by_coordinate_system sd [target] false) target
    (filter_by_coordinate_system sd [target] false).shapes (hmem sd.shapes _)
  refine ⟨{ images := oi, labels := ol, points := op, shapes := os,
            tables := (filter_by_coordinate_system sd [target] false).tables,
            path := none }, ?_, ?_, ?_⟩
  · simp [transform_to_coordinate_system, hoi, hol, hop, hos, Bind.bind, Except.bind]
  · intro p hp
    simp only [SpatialData.spatialElements, List.mem_append, List.mem_map] at hp
    rcases hp with ((⟨q, hq, hfq⟩ | ⟨q, hq, hfq⟩) | ⟨q, hq, hfq⟩) | ⟨q, hq, hfq⟩
    · rw [← hfq]
      exact hpi q hq
    · rw [← hfq]
      exact hpl q hq
    · rw [← hfq]
      exact hpp q hq
    · rw [← hfq]
      exact hps q hq
  · rfl

/-- C3: for every container and target system, every spatial element of the
container returned by `transform_to_coordinate_system` has exactly one
coordinate-system key, the target system, and the transformation stored
under it is Identity.  The payload action `tf` is arbitrary. -/
theorem transform_to_cs_identity_only (tf : Transformation → Nat → Nat)
    (sd : SpatialData) (target : String) :
    ∃ sd2, transform_to_coordinate_system tf sd target = Except.ok sd2 ∧
      ∀ p ∈ sd2.spatialElements,
        p.2.2.transformations = [(target, Transformation.identity)] := by
  obtain ⟨sd2, h1, h2, _⟩ := transform_to_cs_ok tf sd target
  exact ⟨sd2, h1, h2⟩

/-- C9: `transform_to_coordinate_system` never filters or modifies tables:
the tables of the returned container are exactly the tables of the
original, even though spatial elements not mapped into the target system
are dropped. -/
theorem transform_to_cs_preserves_tables (tf : Transformation → Nat → Nat)
    (sd : SpatialData) (target : String) :
    ∃ sd2, transform_to_coordinate_system tf sd target = Except.ok sd2 ∧
      sd2.tables = sd.tables := by
  obtain ⟨sd2, h1, _, h3⟩ := transform_to_cs_ok tf sd target
  exact ⟨sd2, h1, h3⟩

/-! C2: characterisation of `filter_by_coordinate_system`. -/

theorem matchedSystems_ne_nil {csList : List String} {el : Element} :
    matchedSystems csList el ≠ [] ↔ keepElement csList el = true := by
  constructor
  · intro h
    rcases List.exists_mem_of_ne_nil _ h with ⟨c, hc⟩
    have h2 := List.mem_filter.mp hc
    exact List.any_eq_true.mpr ⟨c, h2.1, h2.2⟩
  · intro h hnil
    rcases List.any_eq_true.mp h with ⟨c, hc, hkc⟩
    have : c ∈ matchedSystems csList el := List.mem_filter.mpr ⟨hc, hkc⟩
    rw [hnil] at this
    exact absurd this (List.not_mem_nil c)

theorem pathsOf_mem {csList : List String} {coll : List (String × Element)}
    {v : String} :
    v ∈ pathsOf csList coll ↔
      ∃ q ∈ coll, q.1 = v ∧ keepElement csList q.2 = true := by
  constructor
  · intro h
    obtain ⟨q, hq, hv⟩ := List.mem_flatMap.mp h
    obtain ⟨c, hc, hcv⟩ := List.mem_map.mp hv
    exact ⟨q, hq, hcv, matchedSystems_ne_nil.mp (List.ne_nil_of_mem hc)⟩
  · rintro ⟨q, hq, hv, hk⟩
    obtain ⟨c, hc⟩ := List.exists_mem_of_ne_nil _ (matchedSystems_ne_nil.mpr hk)
    exact List.mem_flatMap.mpr ⟨q, hq, List.mem_map.mpr ⟨c, hc, hv⟩⟩

theorem filterEntry_already {csList : List String} {ename : String} {el : Element}
    {acc : List (String × Element) × List String}
    (h : alookup acc.1 ename = some el) :
    filterEntry csList ename el acc =
      (acc.1, acc.2 ++ (matchedSystems csList el).map (fun _ => ename)) := by
  induction csList generalizing acc with
  | nil =>
      simp [filterEntry, matchedSystems]
  | cons c rest ih =>
      by_cases hc : hasKey el.transformations c = true
      · have hstep : filterEntry (c :: rest) ename el acc =
            filterEntry rest ename el (aset acc.1 ename el, acc.2 ++ [ename]) := by
          simp [filterEntry, hc]
        rw [hstep, aset_lookup_same h, @ih (acc.1, acc.2 ++ [ename]) h]
        simp [matchedSystems, List.filter_cons, hc]
      · have hstep : filterEntry (c :: rest) ename el acc =
            filterEntry rest ename el acc := by
          simp [filterEntry, hc]
        rw [hstep, ih h]
        simp [matchedSystems, List.filter_cons, hc]

theorem filterEntry_absent {csList : List String} {ename : String} {el : Element}
    {acc : List (String × Element) × List String}
    (h : alookup acc.1 ename = none) :
    filterEntry csList ename el acc =
      ((if keepElement csList el = true then acc.1 ++ [(ename, el)] else acc.1),
       acc.2 ++ (matchedSystems csList el).map (fun _ => ename)) := by
  induction csList generalizing acc with
  | nil =>
      simp [filterEntry, matchedSystems, keepElement]
  | cons c rest ih =>
      by_cases hc : hasKey el.transformations c = true
      · have hstep : filterEntry (c :: rest) ename el acc =
            filterEntry rest ename el (aset acc.1 ename el, acc.2 ++ [ename]) := by
          simp [filterEntry, hc]
        have habs : aset acc.1 ename el = acc.1 ++ [(ename, el)] :=
          aset_not_mem el (alookup_eq_none_iff.mp h)
        have h2 : alookup (acc.1 ++ [(ename, el)]) ename = some el := by
          rw [alookup_append_right _ h]
          simp [alookup]
        rw [hstep, habs]
        rw [@filterEntry_already rest ename el (acc.1 ++ [(ename, el)], acc.2 ++ [ename]) h2]
        have hkeep : keepElement (c :: rest) el = true := by
          simp [keepElement, hc]
        simp [hkeep, matchedSystems, List.filter_cons, hc]
      · have hstep : filterEntry (c :: rest) ename el acc =
            filterEntry rest ename el acc := by
          simp [filterEntry, hc]
        have hkeep : keepElement (c :: rest) el = keepElement rest el := by
          simp [keepElement, List.any_cons, hc]
        rw [hstep, ih h]
        simp [hkeep, matchedSystems, List.filter_cons, hc]

theorem filterFold_eq (csList : List String) (coll : List (String × Element)) :
    ∀ (acc : List (String × Element) × List String),
    (akeys coll).Nodup →
    (∀ n, n ∈ akeys coll → n ∉ akeys acc.1) →
    coll.foldl (fun a q => filterEntry csList q.1 q.2 a) acc =
      (acc.1 ++ coll.filter (fun q => keepElement csList q.2),
       acc.2 ++ pathsOf csList coll) := by
  induction coll with
  | nil =>
      intro acc _ _
      simp [pathsOf]
  | cons q rest ih =>
      intro acc hnd hdisj
      have hq1 : q.1 ∉ akeys acc.1 := hdisj q.1 (by simp [akeys])
      have habs : alookup acc.1 q.1 = none := alookup_eq_none_iff.mpr hq1
      rw [List.foldl_cons, filterEntry_absent habs]
      simp only [akeys, List.map_cons, List.nodup_cons] at hnd
      by_cases hkeep : keepElement csList q.2 = true
      · rw [if_pos hkeep]
        have hdisj2 : ∀ n, n ∈ akeys rest → n ∉ akeys (acc.1 ++ [(q.1, q.2)]) := by
          intro n hn
          simp only [akeys, List.map_append, List.mem_append, List.map_cons,
            List.mem_cons] at hdisj ⊢
          push_neg
          refine ⟨fun hmem => hdisj n (Or.inr hn) hmem, ?_, ?_⟩
          · intro he
            exact hnd.1 (he ▸ hn)
          · intro he
            simp at he
        rw [@ih (acc.1 ++ [(q.1, q.2)], acc.2 ++ (matchedSystems csList q.2).map (fun _ => q.1)) hnd.2 hdisj2]
        simp [List.filter_cons, hkeep, pathsOf, List.append_assoc]
      · rw [if_neg hkeep]
        have hdisj2 : ∀ n, n ∈ akeys rest → n ∉ akeys acc.1 := by
          intro n hn
          refine hdisj n ?_
          simp only [akeys, List.map_cons, List.mem_cons]
          exact Or.inr (by simpa [akeys] using hn)
        rw [@ih (acc.1, acc.2 ++ (matchedSystems csList q.2).map (fun _ => q.1)) hnd.2 hdisj2]
        simp [List.filter_cons, hkeep, pathsOf, List.append_assoc]

theorem filterColl_eq (csList : List String) (coll : List (String × Element))
    (paths : List String) (hnd : (akeys coll).Nodup) :
    filterColl csList coll paths =
      (coll.filter (fun q => keepElement csList q.2), paths ++ pathsOf csList coll) := by
  unfold filterColl
  rw [filterFold_eq csList coll ([], paths) hnd (by intro n _ hn; simp [akeys] at hn)]
  simp

theorem filter_table_by_elements_congr (t : Table) (l1 l2 : List String)
    (h : ∀ v, v ∈ l1 ↔ v ∈ l2) :
    filter_table_by_elements t l1 = filter_table_by_elements t l2 := by
  have hc : ∀ v : String, l1.contains v = l2.contains v := by
    intro v
    by_cases hv : v ∈ l1
    · have hv2 : v ∈ l2 := (h v).mp hv
      simp [hv, hv2]
    · have hv2 : v ∉ l2 := fun h2 => hv ((h v).mpr h2)
      simp [hv, hv2]
  have hfg : (fun v => l1.contains v) = (fun v => l2.contains v) := funext hc
  unfold filter_table_by_elements
  rw [hfg]

theorem mem_pathsAll_iff (sd : SpatialData) (csList : List String) (v : String) :
    v ∈ ((pathsOf csList sd.images ++ pathsOf csList sd.labels) ++
        pathsOf csList sd.points) ++ pathsOf csList sd.shapes ↔
      v ∈ keptElementNames sd csList := by
  have hk : v ∈ keptElementNames sd csList ↔
      ∃ w ∈ sd.spatialElements, keepElement csList w.2.2 = true ∧ w.2.1 = v := by
    unfold keptElementNames
    constructor
    · intro h
      obtain ⟨w, hw, hv⟩ := List.mem_map.mp h
      have h2 := List.mem_filter.mp hw
      exact ⟨w, h2.1, h2.2, hv⟩
    · rintro ⟨w, hw, hkw, hv⟩
      exact List.mem_map.mpr ⟨w, List.mem_filter.mpr ⟨hw, hkw⟩, hv⟩
  rw [hk]
  simp only [List.mem_append, pathsOf_mem]
  unfold SpatialData.spatialElements
  constructor
  · rintro (((⟨q, hq, hv, hkq⟩ | ⟨q, hq, hv, hkq⟩) | ⟨q, hq, hv, hkq⟩) | ⟨q, hq, hv, hkq⟩)
    · refine ⟨("images", q.1, q.2), ?_, hkq, hv⟩
      exact List.mem_append_left _ (List.mem_append_left _
        (List.mem_append_left _ (List.mem_map.mpr ⟨q, hq, rfl⟩)))
    · refine ⟨("labels", q.1, q.2), ?_, hkq, hv⟩
      exact List.mem_append_left _ (List.mem_append_left _
        (List.mem_append_right _ (List.mem_map.mpr ⟨q, hq, rfl⟩)))
    · refine ⟨("points", q.1, q.2), ?_, hkq, hv⟩
      exact List.mem_append_left _ (List.mem_append_right _
        (List.mem_map.mpr ⟨q, hq, rfl⟩))
    · refine ⟨("shapes", q.1, q.2), ?_, hkq, hv⟩
      exact List.mem_append_right _ (List.mem_map.mpr ⟨q, hq, rfl⟩)
  · rintro ⟨w, hw, hkw, hv⟩
    simp only [List.mem_append, List.mem_map] at hw
    rcases hw with ((⟨q, hq, hfq⟩ | ⟨q, hq, hfq⟩) | ⟨q, hq, hfq⟩) | ⟨q, hq, hfq⟩
    · rw [← hfq] at hkw hv
      exact Or.inl (Or.inl (Or.inl ⟨q, hq, hv, hkw⟩))
    · rw [← hfq] at hkw hv
      exact Or.inl (Or.inl (Or.inr ⟨q, hq, hv, hkw⟩))
    · rw [← hfq] at hkw hv
      exact Or.inl (Or.inr ⟨q, hq, hv, hkw⟩)
    · rw [← hfq] at hkw hv
      exact Or.inr ⟨q, hq, hv, hkw⟩

/-- C2: `filter_by_coordinate_system` keeps a spatial element iff its
transformation mapping contains at least one requested system; with
`filter_tables` true every table is replaced by its restriction to the kept
element names, with `filter_tables` false tables are passed through
unfiltered.  The element-name uniqueness of each collection (a Python dict
invariant) is the only hypothesis. -/
theorem filter_by_coordinate_system_spec (sd : SpatialData) (csList : List String)
    (ft : Bool)
    (hi : (akeys sd.images).Nodup) (hl : (akeys sd.labels).Nodup)
    (hp : (akeys sd.points).Nodup) (hs : (akeys sd.shapes).Nodup) :
    (filter_by_coordinate_system sd csList ft).images =
      sd.images.filter (fun q => keepElement csList q.2) ∧
    (filter_by_coordinate_system sd csList ft).labels =
      sd.labels.filter (fun q => keepElement csList q.2) ∧
    (filter_by_coordinate_system sd csList ft).points =
      sd.points.filter (fun q => keepElement csList q.2) ∧
    (filter_by_coordinate_system sd csList ft).shapes =
      sd.shapes.filter (fun q => keepElement csList q.2) ∧
    (ft = false → (filter_by_coordinate_system sd csList ft).tables = sd.tables) ∧
    (ft = true → (filter_by_coordinate_system sd csList ft).tables =
      sd.tables.map (fun p =>
        (p.1, filter_table_by_elements p.2 (keptElementNames sd csList)))) := by
  have e1 := filterColl_eq csList sd.images [] hi
  have e2 := filterColl_eq csList sd.labels ((filterColl csList sd.images []).2) hl
  have e3 := filterColl_eq csList sd.points
    ((filterColl csList sd.labels ((filterColl csList sd.images []).2)).2) hp
  have e4 := filterColl_eq csList sd.shapes
    ((filterColl csList sd.points
      ((filterColl csList sd.labels ((filterColl csList sd.images []).2)).2)).2) hs
  have p1 : (filterColl csList sd.images []).2 = [] ++ pathsOf csList sd.images := by
    rw [e1]
  have p2 : (filterColl csList sd.labels ((filterColl csList sd.images []).2)).2 =
      ([] ++ pathsOf csList sd.images) ++ pathsOf csList sd.labels := by
    rw [e2, p1]
  have p3 : (filterColl csList sd.points
      ((filterColl csList sd.labels ((filterColl csList sd.images []).2)).2)).2 =
      (([] ++ pathsOf csList sd.images) ++ pathsOf csList sd.labels) ++
        pathsOf csList sd.points := by
    rw [e3, p2]
  have p4 : (filterColl csList sd.shapes
      ((filterColl csList sd.points
        ((filterColl csList sd.labels ((filterColl csList sd.images []).2)).2)).2)).2 =
      ((([] ++ pathsOf csList sd.images) ++ pathsOf csList sd.labels) ++
        pathsOf csList sd.points) ++ pathsOf csList sd.shapes := by
    rw [e4, p3]
  refine ⟨?_, ?_, ?_, ?_, ?_, ?_⟩
  · show (filterColl csList sd.images []).1 = _
    rw [e1]
  · show (filterColl csList sd.labels ((filterColl csList sd.images []).2)).1 = _
    rw [e2]
  · show (filterColl csList sd.points
      ((filterColl csList sd.labels ((filterColl csList sd.images []).2)).2)).1 = _
    rw [e3]
  · show (filterColl csList sd.shapes
      ((filterColl csList sd.points
        ((filterColl csList sd.labels ((filterColl csList sd.images []).2)).2)).2)).1 = _
    rw [e4]
  · intro hft
    subst hft
    rfl
  · intro hft
    subst hft
    show sd.tables.map (fun p => (p.1, filter_table_by_elements p.2
        ((filterColl csList sd.shapes
          ((filterColl csList sd.points
            ((filterColl csList sd.labels
              ((filterColl csList sd.images []).2)).2)).2)).2))) = _
    rw [p4]
    simp only [List.nil_append]
    refine List.map_congr_left ?_
    intro p hp2
    rw [filter_table_by_elements_congr p.2
      (((pathsOf csList sd.images ++ pathsOf csList sd.labels) ++
        pathsOf csList sd.points) ++ pathsOf csList sd.shapes)
      (keptElementNames sd csList) (fun v => mem_pathsAll_iff sd csList v)]

/-- Witness for C2: the filter at a concrete container and system. -/
theorem filter_by_coordinate_system_spec_witness :
    ((akeys exSd.images).Nodup ∧ (akeys exSd.labels).Nodup ∧
     (akeys exSd.points).Nodup ∧ (akeys exSd.shapes).Nodup) ∧
    (filter_by_coordinate_system exSd ["B"] true).images =
      exSd.images.filter (fun q => keepElement ["B"] q.2) ∧
    (filter_by_coordinate_system exSd ["B"] true).tables =
      exSd.tables.map (fun p =>
        (p.1, filter_table_by_elements p.2 (keptElementNames exSd ["B"]))) :=
  ⟨⟨by decide, by decide, by decide, by decide⟩,
   (filter_by_coordinate_system_spec exSd ["B"] true
     (by decide) (by decide) (by decide) (by decide)).1,
   (filter_by_coordinate_system_spec exSd ["B"] true
     (by decide) (by decide) (by decide) (by decide)).2.2.2.2.2 rfl⟩

/-! C1: the simultaneous swap rename. -/

theorem mem_akeys_of_lookup {α : Type} {l : List (String × α)} {k : String} {v : α}
    (h : alookup l k = some v) : k ∈ akeys l := by
  by_contra hmem
  rw [alookup_eq_none_iff.mpr hmem] at h
  cases h

theorem apop_append_left {α : Type} {l1 : List (String × α)} {k : String}
    (l2 : List (String × α)) (h : k ∈ akeys l1) :
    apop (l1 ++ l2) k = apop l1 k ++ l2 := by
  induction l1 with
  | nil => simp [akeys] at h
  | cons p rest ih =>
      obtain ⟨a, b⟩ := p
      by_cases hk : a = k
      · simp [apop, hk]
      · simp only [akeys, List.map_cons, List.mem_cons] at h
        rcases h with h | h
        · exact absurd h.symm hk
        · simp [apop, hk, ih (by simpa [akeys] using h)]

theorem renameStrip_skip :
    ∀ (l rest : List (String × Transformation)) (sufs : List String)
      (acc : List (String × Transformation)),
    (∀ p ∈ l, p.1 ∉ sufs) → (akeys l).Nodup →
    (∀ n ∈ akeys l, n ∉ akeys acc) →
    renameStripPhase (l ++ rest) sufs acc = renameStripPhase rest sufs (acc ++ l) := by
  intro l
  induction l with
  | nil =>
      intro rest sufs acc _ _ _
      simp
  | cons p l2 ih =>
      intro rest sufs acc hsufs hnd hdisj
      obtain ⟨k, v⟩ := p
      have hk : k ∉ sufs := hsufs (k, v) (List.mem_cons_self _ _)
      have hstep : renameStripPhase (((k, v) :: l2) ++ rest) sufs acc =
          renameStripPhase (l2 ++ rest) sufs (aset acc k v) := by
        simp [renameStripPhase, hk]
      have hkacc : k ∉ akeys acc := hdisj k (by simp [akeys])
      simp only [akeys, List.map_cons, List.nodup_cons] at hnd
      have hdisj2 : ∀ n ∈ akeys l2, n ∉ akeys (acc ++ [(k, v)]) := by
        intro n hn hmem
        simp only [akeys, List.map_append, List.mem_append, List.map_cons,
          List.map_nil, List.mem_singleton] at hmem
        rcases hmem with hmem | hmem
        · refine hdisj n ?_ hmem
          simp only [akeys, List.map_cons, List.mem_cons]
          exact Or.inr (by simpa [akeys] using hn)
        · exact hnd.1 (hmem ▸ hn)
      have hacc : (acc ++ [(k, v)]) ++ l2 = acc ++ ((k, v) :: l2) := by simp
      rw [hstep, aset_not_mem v hkacc,
        ih rest sufs (acc ++ [(k, v)])
          (fun q hq => hsufs q (List.mem_cons_of_mem _ hq)) hnd.2 hdisj2,
        hacc]

theorem renameElement_swap (A B : String) (sfx : Nat → String)
    (tm : List (String × Transformation))
    (hnd : (akeys tm).Nodup) (hAB : A ≠ B)
    (hk1 : (B ++ sfx 0) ∉ akeys tm) (hk2 : (A ++ sfx 1) ∉ akeys tm)
    (hk12 : (B ++ sfx 0) ≠ (A ++ sfx 1))
    (hd1 : (B ++ sfx 0).dropRight 8 = B) (hd2 : (A ++ sfx 1).dropRight 8 = A)
    (hk1B : (B ++ sfx 0) ≠ B) (hk2A : (A ++ sfx 1) ≠ A) :
    alookup (renameElementTransformations [(A, B), (B, A)] sfx tm) B = alookup tm A ∧
    alookup (renameElementTransformations [(A, B), (B, A)] sfx tm) A = alookup tm B ∧
    (∀ k, k ≠ A → k ≠ B →
      alookup (renameElementTransformations [(A, B), (B, A)] sfx tm) k = alookup tm k) ∧
    (renameElementTransformations [(A, B), (B, A)] sfx tm).length = tm.length := by
  cases hA : alookup tm A with
  | none =>
      cases hB : alookup tm B with
      | none =>
          have hph : renameSuffixPhase sfx 0 [(A, B), (B, A)] tm [] = (tm, []) := by
            simp [renameSuffixPhase, hA, hB]
          have hskip := renameStrip_skip tm [] [] []
            (fun p _ => List.not_mem_nil _) hnd (fun n _ hx => List.not_mem_nil _ hx)
          have hr : renameElementTransformations [(A, B), (B, A)] sfx tm = tm := by
            unfold renameElementTransformations
            rw [hph]
            dsimp only
            rw [show tm = tm ++ [] by simp, hskip]
            simp [renameStripPhase]
          rw [hr]
          exact ⟨hB, hA, fun k _ _ => rfl, rfl⟩
      | some vB =>
          have ha2 : aset (apop tm B) (A ++ sfx 1) vB =
              apop tm B ++ [(A ++ sfx 1, vB)] :=
            aset_not_mem _ (fun hm => hk2 (mem_akeys_apop hm))
          have hph : renameSuffixPhase sfx 0 [(A, B), (B, A)] tm [] =
              (apop tm B ++ [(A ++ sfx 1, vB)], [A ++ sfx 1]) := by
            simp [renameSuffixPhase, hA, hB, ha2]
          have hP1 : ∀ p ∈ apop tm B, p.1 ∉ [A ++ sfx 1] := by
            intro p hp hmem
            have hpk : p.1 ∈ akeys tm :=
              mem_akeys_apop (List.mem_map_of_mem Prod.fst hp)
            rcases List.mem_cons.mp hmem with h | h
            · exact hk2 (h ▸ hpk)
            · exact absurd h (List.not_mem_nil _)
          have hskip := renameStrip_skip (apop tm B) [(A ++ sfx 1, vB)]
            [A ++ sfx 1] [] hP1 (nodup_akeys_apop hnd)
            (fun n _ hx => List.not_mem_nil _ hx)
          have hAnot : A ∉ akeys (apop tm B) :=
            fun hm => (alookup_eq_none_iff.mp hA) (mem_akeys_apop hm)
          have hasetA : aset (apop tm B) A vB = apop tm B ++ [(A, vB)] :=
            aset_not_mem _ hAnot
          have htail : renameStripPhase [(A ++ sfx 1, vB)] [A ++ sfx 1] (apop tm B) =
              apop tm B ++ [(A, vB)] := by
            simp [renameStripPhase, hd2, hasetA]
          have hr : renameElementTransformations [(A, B), (B, A)] sfx tm =
              apop tm B ++ [(A, vB)] := by
            unfold renameElementTransformations
            rw [hph]
            dsimp only
            rw [hskip]
            simp only [List.nil_append]
            exact htail
          refine ⟨?_, ?_, ?_, ?_⟩
          · rw [hr, alookup_append_right _ (alookup_apop_self hnd)]
            simp [alookup, hAB]
          · rw [hr, alookup_append_right _ (by rw [alookup_apop_ne hAB]; exact hA)]
            simp [alookup]
          · intro k hkA hkB
            have he : alookup (apop tm B) k = alookup tm k := alookup_apop_ne hkB
            cases hv : alookup tm k with
            | some v =>
                rw [hr, alookup_append_left _ (by rw [he, hv])]
            | none =>
                rw [hr, alookup_append_right _ (by rw [he, hv])]
                simp [alookup, Ne.symm hkA]
          · rw [hr, List.length_append]
            simpa using length_apop hB
  | some vA =>
      cases hB : alookup tm B with
      | none =>
          have ha1 : aset (apop tm A) (B ++ sfx 0) vA =
              apop tm A ++ [(B ++ sfx 0, vA)] :=
            aset_not_mem _ (fun hm => hk1 (mem_akeys_apop hm))
          have hlookB : alookup (apop tm A ++ [(B ++ sfx 0, vA)]) B = none := by
            rw [alookup_append_right _ (by rw [alookup_apop_ne (Ne.symm hAB)]; exact hB)]
            simp [alookup, hk1B]
          have hph : renameSuffixPhase sfx 0 [(A, B), (B, A)] tm [] =
              (apop tm A ++ [(B ++ sfx 0, vA)], [B ++ sfx 0]) := by
            simp [renameSuffixPhase, hA, ha1, hlookB]
          have hP1 : ∀ p ∈ apop tm A, p.1 ∉ [B ++ sfx 0] := by
            intro p hp hmem
            have hpk : p.1 ∈ akeys tm :=
              mem_akeys_apop (List.mem_map_of_mem Prod.fst hp)
            rcases List.mem_cons.mp hmem with h | h
            · exact hk1 (h ▸ hpk)
            · exact absurd h (List.not_mem_nil _)
          have hskip := renameStrip_skip (apop tm A) [(B ++ sfx 0, vA)]
            [B ++ sfx 0] [] hP1 (nodup_akeys_apop hnd)
            (fun n _ hx => List.not_mem_nil _ hx)
          have hBnot : B ∉ akeys (apop tm A) :=
            fun hm => (alookup_eq_none_iff.mp hB) (mem_akeys_apop hm)
          have hasetB : aset (apop tm A) B vA = apop tm A ++ [(B, vA)] :=
            aset_not_mem _ hBnot
          have htail : renameStripPhase [(B ++ sfx 0, vA)] [B ++ sfx 0] (apop tm A) =
              apop tm A ++ [(B, vA)] := by
            simp [renameStripPhase, hd1, hasetB]
          have hr : renameElementTransformations [(A, B), (B, A)] sfx tm =
              apop tm A ++ [(B, vA)] := by
            unfold renameElementTransformations
            rw [hph]
            dsimp only
            rw [hskip]
            simp only [List.nil_append]
            exact htail
          refine ⟨?_, ?_, ?_, ?_⟩
          · rw [hr, alookup_append_right _ (by rw [alookup_apop_ne (Ne.symm hAB)]; exact hB)]
            simp [alookup]
          · rw [hr, alookup_append_right _ (alookup_apop_self hnd)]
            simp [alookup, Ne.symm hAB]
          · intro k hkA hkB
            have he : alookup (apop tm A) k = alookup tm k := alookup_apop_ne hkA
            cases hv : alookup tm k with
            | some v =>
                rw [hr, alookup_append_left _ (by rw [he, hv])]
            | none =>
                rw [hr, alookup_append_right _ (by rw [he, hv])]
                simp [alookup, Ne.symm hkB]
          · rw [hr, List.length_append]
            simpa using length_apop hA
      | some vB =>
          have ha1 : aset (apop tm A) (B ++ sfx 0) vA =
              apop tm A ++ [(B ++ sfx 0, vA)] :=
            aset_not_mem _ (fun hm => hk1 (mem_akeys_apop hm))
          have hlookB : alookup (apop tm A ++ [(B ++ sfx 0, vA)]) B = some vB :=
            alookup_append_left _ (by rw [alookup_apop_ne (Ne.symm hAB)]; exact hB)
          have hBmem : B ∈ akeys (apop tm A) :=
            mem_akeys_of_lookup (l := apop tm A)
              (by rw [alookup_apop_ne (Ne.symm hAB)]; exact hB)
          have hpop2 : apop (apop tm A ++ [(B ++ sfx 0, vA)]) B =
              apop (apop tm A) B ++ [(B ++ sfx 0, vA)] :=
            apop_append_left _ hBmem
          have ha2 : aset (apop (apop tm A) B ++ [(B ++ sfx 0, vA)]) (A ++ sfx 1) vB =
              (apop (apop tm A) B ++ [(B ++ sfx 0, vA)]) ++ [(A ++ sfx 1, vB)] := by
            apply aset_not_mem
            intro hm
            simp only [akeys, List.map_append, List.mem_append, List.map_cons,
              List.map_nil, List.mem_singleton] at hm
            rcases hm with hm | hm
            · exact hk2 (mem_akeys_apop (mem_akeys_apop (by simpa [akeys] using hm)))
            · exact hk12 hm.symm
          have hph : renameSuffixPhase sfx 0 [(A, B), (B, A)] tm [] =
              ((apop (apop tm A) B ++ [(B ++ sfx 0, vA)]) ++ [(A ++ sfx 1, vB)],
               [B ++ sfx 0, A ++ sfx 1]) := by
            simp [renameSuffixPhase, hA, ha1, hlookB, hpop2, ha2]
          have hre : (apop (apop tm A) B ++ [(B ++ sfx 0, vA)]) ++ [(A ++ sfx 1, vB)] =
              apop (apop tm A) B ++ [(B ++ sfx 0, vA), (A ++ sfx 1, vB)] := by
            simp
          have hP1 : ∀ p ∈ apop (apop tm A) B, p.1 ∉ [B ++ sfx 0, A ++ sfx 1] := by
            intro p hp hmem
            have hpk : p.1 ∈ akeys tm :=
              mem_akeys_apop (mem_akeys_apop (List.mem_map_of_mem Prod.fst hp))
            rcases List.mem_cons.mp hmem with h | h
            · exact hk1 (h ▸ hpk)
            · rcases List.mem_cons.mp h with h2 | h2
              · exact hk2 (h2 ▸ hpk)
              · exact absurd h2 (List.not_mem_nil _)
          have hskip := renameStrip_skip (apop (apop tm A) B)
            [(B ++ sfx 0, vA), (A ++ sfx 1, vB)] [B ++ sfx 0, A ++ sfx 1] []
            hP1 (nodup_akeys_apop (nodup_akeys_apop hnd))
            (fun n _ hx => List.not_mem_nil _ hx)
          have hlookPB : alookup (apop (apop tm A) B) B = none :=
            alookup_apop_self (nodup_akeys_apop hnd)
          have hBP : B ∉ akeys (apop (apop tm A) B) := alookup_eq_none_iff.mp hlookPB
          have hlookPA : alookup (apop (apop tm A) B) A = none := by
            rw [alookup_apop_ne hAB]
            exact alookup_apop_self hnd
          have hAP : A ∉ akeys (apop (apop tm A) B) := alookup_eq_none_iff.mp hlookPA
          have hasetB : aset (apop (apop tm A) B) B vA =
              apop (apop tm A) B ++ [(B, vA)] := aset_not_mem _ hBP
          have hasetA : aset (apop (apop tm A) B ++ [(B, vA)]) A vB =
              (apop (apop tm A) B ++ [(B, vA)]) ++ [(A, vB)] := by
            apply aset_not_mem
            intro hm
            simp only [akeys, List.map_append, List.mem_append, List.map_cons,
              List.map_nil, List.mem_singleton] at hm
            rcases hm with hm | hm
            · exact hAP (by simpa [akeys] using hm)
            · exact hAB hm
          have herase : [B ++ sfx 0, A ++ sfx 1].erase (B ++ sfx 0) = [A ++ sfx 1] := by
            simp [List.erase_cons]
          have htail : renameStripPhase [(B ++ sfx 0, vA), (A ++ sfx 1, vB)]
              [B ++ sfx 0, A ++ sfx 1] (apop (apop tm A) B) =
              (apop (apop tm A) B ++ [(B, vA)]) ++ [(A, vB)] := by
            simp [renameStripPhase, herase, hd1, hd2, hasetB, hasetA]
          have hr : renameElementTransformations [(A, B), (B, A)] sfx tm =
              apop (apop tm A) B ++ ([(B, vA)] ++ [(A, vB)]) := by
            unfold renameElementTransformations
            rw [hph]
            dsimp only
            rw [hre, hskip]
            simp only [List.nil_append]
            rw [htail]
            simp
          refine ⟨?_, ?_, ?_, ?_⟩
          · rw [hr, alookup_append_right _ hlookPB]
            simp [alookup]
          · rw [hr, alookup_append_right _ hlookPA]
            simp [alookup, Ne.symm hAB]
          · intro k hkA hkB
            have he : alookup (apop (apop tm A) B) k = alookup tm k := by
              rw [alookup_apop_ne hkB, alookup_apop_ne hkA]
            cases hv : alookup tm k with
            | some v =>
                rw [hr, alookup_append_left _ (by rw [he, hv])]
            | none =>
                rw [hr, alookup_append_right _ (by rw [he, hv])]
                simp [alookup, Ne.symm hkA, Ne.symm hkB]
          · rw [hr, List.length_append]
            have l1 := length_apop hB
            have l2 := length_apop hA
            have l3 := length_apop (l := apop tm A) (k := B)
              (v := vB) (by rw [alookup_apop_ne (Ne.symm hAB)]; exact hB)
            simp only [List.length_append, List.length_cons, List.length_nil] at l1 l2 l3 ⊢
            omega

theorem forall₂_map_map {α β γ : Type} (R : β → γ → Prop) (g : α → β) (h : α → γ) :
    ∀ l : List α, (∀ x ∈ l, R (g x) (h x)) → List.Forall₂ R (l.map g) (l.map h) := by
  intro l
  induction l with
  | nil =>
      intro _
      simp only [List.map_nil]
      exact List.Forall₂.nil
  | cons x rest ih =>
      intro hall
      simp only [List.map_cons]
      exact List.Forall₂.cons (hall x (List.mem_cons_self _ _))
        (ih (fun y hy => hall y (List.mem_cons_of_mem _ hy)))

theorem validateRename_swap_ok (sd : SpatialData) (A B : String)
    (hA : A ∈ sd.coordinate_systems) (hB : B ∈ sd.coordinate_systems)
    (hAB : A ≠ B) :
    validateRename sd.coordinate_systems [(A, B), (B, A)]
      (sd.coordinate_systems.filter
        (fun c => ¬ ([(A, B), (B, A)].map Prod.fst).contains c)) = none := by
  have hBn : B ∉ sd.coordinate_systems.filter
      (fun c => ¬ ([(A, B), (B, A)].map Prod.fst).contains c) := by
    intro hmem
    have h2 := (List.mem_filter.mp hmem).2
    simp at h2
  have hAn : A ∉ sd.coordinate_systems.filter
      (fun c => ¬ ([(A, B), (B, A)].map Prod.fst).contains c) ++ [B] := by
    intro hmem
    rcases List.mem_append.mp hmem with h | h
    · have h2 := (List.mem_filter.mp h).2
      simp at h2
    · rcases List.mem_cons.mp h with h2 | h2
      · exact hAB h2
      · exact absurd h2 (List.not_mem_nil _)
  simp [validateRename, hA, hB, hBn, hAn, hAB]

/-- C1: with systems A and B both live, the simultaneous rename A to B and
B to A swaps the element memberships of A and B: for every spatial element,
in order, the renamed mapping holds the old A entry under B and the old B
entry under A, keeps every other entry, and has the same number of entries
(nothing dropped or overwritten).  The random 8-character suffixes drawn by
the source are supplied by the oracle `sfx` keyed by element name, with the
almost-sure freshness properties as hypotheses. -/
theorem rename_swap_spec (sd : SpatialData) (A B : String)
    (sfx : String → Nat → String)
    (hA : A ∈ sd.coordinate_systems) (hB : B ∈ sd.coordinate_systems)
    (hAB : A ≠ B)
    (hnd : ∀ p ∈ sd.spatialElements, (akeys p.2.2.transformations).Nodup)
    (hfresh : ∀ p ∈ sd.spatialElements,
      (B ++ sfx p.2.1 0) ∉ akeys p.2.2.transformations ∧
      (A ++ sfx p.2.1 1) ∉ akeys p.2.2.transformations ∧
      (B ++ sfx p.2.1 0) ≠ (A ++ sfx p.2.1 1) ∧
      (B ++ sfx p.2.1 0).dropRight 8 = B ∧
      (A ++ sfx p.2.1 1).dropRight 8 = A ∧
      (B ++ sfx p.2.1 0) ≠ B ∧ (A ++ sfx p.2.1 1) ≠ A) :
    ∃ sd2, rename_coordinate_systems sd [(A, B), (B, A)] sfx = Except.ok sd2 ∧
      List.Forall₂ (fun p q => p.1 = q.1 ∧ p.2.1 = q.2.1 ∧
          alookup q.2.2.transformations B = alookup p.2.2.transformations A ∧
          alookup q.2.2.transformations A = alookup p.2.2.transformations B ∧
          (∀ k, k ≠ A → k ≠ B →
            alookup q.2.2.transformations k = alookup p.2.2.transformations k) ∧
          q.2.2.transformations.length = p.2.2.transformations.length)
        sd.spatialElements sd2.spatialElements := by
  refine ⟨{ sd with
      images := renameColl [(A, B), (B, A)] sfx sd.images,
      labels := renameColl [(A, B), (B, A)] sfx sd.labels,
      points := renameColl [(A, B), (B, A)] sfx sd.points,
      shapes := renameColl [(A, B), (B, A)] sfx sd.shapes }, ?_, ?_⟩
  · unfold rename_coordinate_systems
    rw [validateRename_swap_ok sd A B hA hB hAB]
  · have hmemI : ∀ x ∈ sd.images, ("images", x.1, x.2) ∈ sd.spatialElements := by
      intro x hx
      exact List.mem_append_left _ (List.mem_append_left _
        (List.mem_append_left _ (List.mem_map.mpr ⟨x, hx, rfl⟩)))
    have hmemL : ∀ x ∈ sd.labels, ("labels", x.1, x.2) ∈ sd.spatialElements := by
      intro x hx
      exact List.mem_append_left _ (List.mem_append_left _
        (List.mem_append_right _ (List.mem_map.mpr ⟨x, hx, rfl⟩)))
    have hmemP : ∀ x ∈ sd.points, ("points", x.1, x.2) ∈ sd.spatialElements := by
      intro x hx
      exact List.mem_append_left _ (List.mem_append_right _
        (List.mem_map.mpr ⟨x, hx, rfl⟩))
    have hmemS : ∀ x ∈ sd.shapes, ("shapes", x.1, x.2) ∈ sd.spatialElements := by
      intro x hx
      exact List.mem_append_right _ (List.mem_map.mpr ⟨x, hx, rfl⟩)
    show List.Forall₂ _
      (((sd.images.map (fun p => ("images", p.1, p.2))
          ++ sd.labels.map (fun p => ("labels", p.1, p.2)))
          ++ sd.points.map (fun p => ("points", p.1, p.2)))
          ++ sd.shapes.map (fun p => ("shapes", p.1, p.2)))
      ((((renameColl [(A, B), (B, A)] sfx sd.images).map (fun p => ("images", p.1, p.2))
          ++ (renameColl [(A, B), (B, A)] sfx sd.labels).map (fun p => ("labels", p.1, p.2)))
          ++ (renameColl [(A, B), (B, A)] sfx sd.points).map (fun p => ("points", p.1, p.2)))
          ++ (renameColl [(A, B), (B, A)] sfx sd.shapes).map (fun p => ("shapes", p.1, p.2)))
    refine List.rel_append (List.rel_append (List.rel_append ?_ ?_) ?_) ?_
    · unfold renameColl
      rw [List.map_map]
      refine forall₂_map_map _ _ _ sd.images ?_
      intro x hx
      obtain ⟨f1, f2, f3, f4, f5, f6, f7⟩ := hfresh _ (hmemI x hx)
      have hswap := renameElement_swap A B (sfx x.1) x.2.transformations
        (hnd _ (hmemI x hx)) hAB f1 f2 f3 f4 f5 f6 f7
      exact ⟨rfl, rfl, hswap.1, hswap.2.1, hswap.2.2.1, hswap.2.2.2⟩
    · unfold renameColl
      rw [List.map_map]
      refine forall₂_map_map _ _ _ sd.labels ?_
      intro x hx
      obtain ⟨f1, f2, f3, f4, f5, f6, f7⟩ := hfresh _ (hmemL x hx)
      have hswap := renameElement_swap A B (sfx x.1) x.2.transformations
        (hnd _ (hmemL x hx)) hAB f1 f2 f3 f4 f5 f6 f7
      exact ⟨rfl, rfl, hswap.1, hswap.2.1, hswap.2.2.1, hswap.2.2.2⟩
    · unfold renameColl
      rw [List.map_map]
      refine forall₂_map_map _ _ _ sd.points ?_
      intro x hx
      obtain ⟨f1, f2, f3, f4, f5, f6, f7⟩ := hfresh _ (hmemP x hx)
      have hswap := renameElement_swap A B (sfx x.1) x.2.transformations
        (hnd _ (hmemP x hx)) hAB f1 f2 f3 f4 f5 f6 f7
      exact ⟨rfl, rfl, hswap.1, hswap.2.1, hswap.2.2.1, hswap.2.2.2⟩
    · unfold renameColl
      rw [List.map_map]
      refine forall₂_map_map _ _ _ sd.shapes ?_
      intro x hx
      obtain ⟨f1, f2, f3, f4, f5, f6, f7⟩ := hfresh _ (hmemS x hx)
      have hswap := renameElement_swap A B (sfx x.1) x.2.transformations
        (hnd _ (hmemS x hx)) hAB f1 f2 f3 f4 f5 f6 f7
      exact ⟨rfl, rfl, hswap.1, hswap.2.1, hswap.2.2.1, hswap.2.2.2⟩

/-- Witness for C1 at a concrete container with both systems live: the
image element carries A, B and C, the labels element only B. -/
theorem rename_swap_spec_witness :
    (("A" : String) ∈ exSd.coordinate_systems ∧
     ("B" : String) ∈ exSd.coordinate_systems ∧ ("A" : String) ≠ "B") ∧
    ∃ sd2, rename_coordinate_systems exSd [("A", "B"), ("B", "A")] exSfx =
        Except.ok sd2 ∧
      List.Forall₂ (fun p q => p.1 = q.1 ∧ p.2.1 = q.2.1 ∧
          alookup q.2.2.transformations "B" = alookup p.2.2.transformations "A" ∧
          alookup q.2.2.transformations "A" = alookup p.2.2.transformations "B" ∧
          (∀ k, k ≠ "A" → k ≠ "B" →
            alookup q.2.2.transformations k = alookup p.2.2.transformations k) ∧
          q.2.2.transformations.length = p.2.2.transformations.length)
        exSd.spatialElements sd2.spatialElements :=
  ⟨⟨by decide, by decide, by decide⟩,
   rename_swap_spec exSd "A" "B" exSfx (by decide) (by decide) (by decide)
     (by decide) (by decide)⟩

/-! C7: fault isolation of the warn-mode store reader. -/

theorem spatialElementNames_eq (sd : SpatialData) :
    sd.spatialElementNames =
      ((akeys sd.images ++ akeys sd.labels) ++ akeys sd.points) ++ akeys sd.shapes := by
  unfold SpatialData.spatialElementNames SpatialData.spatialElements akeys
  simp only [List.map_append, List.map_map, List.append_assoc]
  rfl

theorem mem_allElementNames_insert (sd : SpatialData) (ty n : String)
    (p : StoredPayload) (m : String) :
    m ∈ (insertElement sd ty n p).allElementNames ↔
      m = n ∨ m ∈ sd.allElementNames := by
  have hbase : ∀ s : SpatialData, s.allElementNames =
      (((akeys s.images ++ akeys s.labels) ++ akeys s.points) ++ akeys s.shapes)
        ++ akeys s.tables := by
    intro s
    rw [SpatialData.allElementNames, spatialElementNames_eq]
  cases p with
  | table t =>
      simp only [insertElement, hbase, List.mem_append, mem_akeys_aset]
      tauto
  | spatial e =>
      by_cases h1 : ty = "images"
      · simp only [insertElement, if_pos h1, hbase, List.mem_append, mem_akeys_aset]
        tauto
      · by_cases h2 : ty = "labels"
        · simp only [insertElement, if_neg h1, if_pos h2, hbase, List.mem_append,
            mem_akeys_aset]
          tauto
        · by_cases h3 : ty = "points"
          · simp only [insertElement, if_neg h1, if_neg h2, if_pos h3, hbase,
              List.mem_append, mem_akeys_aset]
            tauto
          · simp only [insertElement, if_neg h1, if_neg h2, if_neg h3, hbase,
              List.mem_append, mem_akeys_aset]
            tauto

theorem readZarrWarnLoop_names :
    ∀ (store : List StoredEntry) (sd : SpatialData) (warns : List String)
      (m : String),
    m ∈ (readZarrWarnLoop store sd warns).1.allElementNames ↔
      (∃ ty p, StoredEntry.good ty m p ∈ store) ∨ m ∈ sd.allElementNames := by
  intro store
  induction store with
  | nil =>
      intro sd warns m
      simp [readZarrWarnLoop]
  | cons en rest ih =>
      intro sd warns m
      cases en with
      | good ty n p =>
          have hstep : readZarrWarnLoop (StoredEntry.good ty n p :: rest) sd warns =
              readZarrWarnLoop rest (insertElement sd ty n p) warns := rfl
          rw [hstep, ih, mem_allElementNames_insert]
          constructor
          · rintro (⟨ty2, p2, hmem⟩ | h | h)
            · exact Or.inl ⟨ty2, p2, List.mem_cons_of_mem _ hmem⟩
            · refine Or.inl ⟨ty, p, ?_⟩
              rw [h]
              exact List.mem_cons_self _ _
            · exact Or.inr h
          · rintro (⟨ty2, p2, hmem⟩ | h)
            · rcases List.mem_cons.mp hmem with he | hmem2
              · injection he with e1 e2 e3
                exact Or.inr (Or.inl e2)
              · exact Or.inl ⟨ty2, p2, hmem2⟩
            · exact Or.inr (Or.inr h)
      | corrupted ty n kind =>
          have hstep : readZarrWarnLoop (StoredEntry.corrupted ty n kind :: rest) sd warns =
              readZarrWarnLoop rest sd (warns ++ [ty ++ "/" ++ n ++ ": " ++ kind]) := rfl
          rw [hstep, ih]
          constructor
          · rintro (⟨ty2, p2, hmem⟩ | h)
            · exact Or.inl ⟨ty2, p2, List.mem_cons_of_mem _ hmem⟩
            · exact Or.inr h
          · rintro (⟨ty2, p2, hmem⟩ | h)
            · rcases List.mem_cons.mp hmem with he | hmem2
              · exact StoredEntry.noConfusion he
              · exact Or.inl ⟨ty2, p2, hmem2⟩
            · exact Or.inr h

theorem readZarrWarnLoop_warns_mono :
    ∀ (store : List StoredEntry) (sd : SpatialData) (warns : List String)
      (m : String), m ∈ warns → m ∈ (readZarrWarnLoop store sd warns).2 := by
  intro store
  induction store with
  | nil =>
      intro sd warns m hm
      exact hm
  | cons en rest ih =>
      intro sd warns m hm
      cases en with
      | good ty n p => exact ih _ _ m hm
      | corrupted ty n kind => exact ih _ _ m (List.mem_append_left _ hm)

theorem readZarrWarnLoop_warns_of_corrupted :
    ∀ (store : List StoredEntry) (sd : SpatialData) (warns : List String)
      (ty n kind : String),
    StoredEntry.corrupted ty n kind ∈ store →
    (ty ++ "/" ++ n ++ ": " ++ kind) ∈ (readZarrWarnLoop store sd warns).2 := by
  intro store
  induction store with
  | nil =>
      intro sd warns ty n kind hmem
      exact absurd hmem (List.not_mem_nil _)
  | cons en rest ih =>
      intro sd warns ty n kind hmem
      rcases List.mem_cons.mp hmem with he | hmem2
      · cases en with
        | good ty2 n2 p2 => exact StoredEntry.noConfusion he
        | corrupted ty2 n2 kind2 =>
            injection he with e1 e2 e3
            subst e1
            subst e2
            subst e3
            exact readZarrWarnLoop_warns_mono rest _ _ _
              (List.mem_append_right _ (List.mem_singleton.mpr rfl))
      · cases en with
        | good ty2 n2 p2 => exact ih _ _ ty n kind hmem2
        | corrupted ty2 n2 kind2 => exact ih _ _ ty n kind hmem2

/-- C7: reading a store in warn mode isolates per-element failures: a
warning naming the element path and the underlying error kind is emitted
for every corrupted element, and the resulting container holds exactly the
elements that read successfully. -/
theorem read_zarr_warn_isolates (store : List StoredEntry)
    (hbad : ∃ en ∈ store, en.isCorrupted = true) :
    ∃ sd warns, read_zarr store "warn" = Except.ok (sd, warns) ∧
      (∀ ty n kind, StoredEntry.corrupted ty n kind ∈ store →
        (ty ++ "/" ++ n ++ ": " ++ kind) ∈ warns) ∧
      (∀ m, m ∈ sd.allElementNames ↔
        ∃ ty p, StoredEntry.good ty m p ∈ store) := by
  refine ⟨(readZarrWarnLoop store emptySpatialData []).1,
          (readZarrWarnLoop store emptySpatialData []).2 ++
            integrityWarnings (readZarrWarnLoop store emptySpatialData []).1,
          ?_, ?_, ?_⟩
  · simp [read_zarr]
  · intro ty n kind hmem
    exact List.mem_append_left _
      (readZarrWarnLoop_warns_of_corrupted store _ _ ty n kind hmem)
  · intro m
    rw [readZarrWarnLoop_names]
    simp [emptySpatialData, SpatialData.allElementNames,
      SpatialData.spatialElementNames, SpatialData.spatialElements, akeys]

/-- Witness for C7 at a store with one corrupted image between two good
elements. -/
theorem read_zarr_warn_isolates_witness :
    (∃ en ∈ exStore, en.isCorrupted = true) ∧
    ∃ sd warns, read_zarr exStore "warn" = Except.ok (sd, warns) ∧
      (∀ ty n kind, StoredEntry.corrupted ty n kind ∈ exStore →
        (ty ++ "/" ++ n ++ ": " ++ kind) ∈ warns) ∧
      (∀ m, m ∈ sd.allElementNames ↔
        ∃ ty p, StoredEntry.good ty m p ∈ exStore) :=
  ⟨⟨StoredEntry.corrupted "images" "img" "JSONDecodeError",
    by simp [exStore], rfl⟩,
   read_zarr_warn_isolates exStore
     ⟨StoredEntry.corrupted "images" "img" "JSONDecodeError",
      by simp [exStore], rfl⟩⟩

end SpatialDataCore
